/-
Verification of the Ink-Memo e-paper image pipeline and chunked transport.

This file gives a shallow embedding of the image-processing functions of
src/unnamed/part_000 (palettes, Lab color distance, `findClosestColor`, the
dithering algorithms, `processImageData`, `decodeProcessedData`) and of the
transport functions of src/bluetooth/bluetooth.ts (`writeImage`, `sendimg`,
`convertUC8159`), together with theorems settling the specification claims.

Modelling conventions:
- JavaScript numbers are embedded as exact rationals (ℚ) where the source only
  performs field arithmetic and comparisons, and as real numbers (ℝ) where the
  source takes fractional powers and square roots (the Lab pipeline).
- A `Uint8ClampedArray` / `Uint8Array` is embedded as a total function ℕ → ℚ
  (resp. ℕ → ℕ) together with an explicit size where one is needed; indices
  beyond the allocated range are 0, matching a freshly zeroed typed array.
- Stores into a `Uint8ClampedArray` clamp to [0,255] and round half-to-even,
  which `cstore` makes explicit.
- In-place mutation becomes a left fold of `Function.update` steps over the
  pixel coordinates in the source's iteration order.
-/
import Mathlib

namespace InkMemo

/-! ## Data model: palette entries, color modes, images (src/bluetooth/types.ts) -/

/-- `ColorPaletteItem` from types.ts: `{name, r, g, b, value}`. Channel values
are JS numbers, embedded as ℚ; the device code `value` is a byte. -/
structure ColorPaletteItem where
  name : String
  r : ℚ
  g : ℚ
  b : ℚ
  value : ℕ
deriving DecidableEq, Repr, Inhabited

/-- `DitherMode` from types.ts. -/
inductive DitherMode where
  | blackWhiteColor
  | threeColor
  | fourColor
  | sixColor
deriving DecidableEq, Repr

/-- `DitherAlgorithm` from types.ts. -/
inductive DitherAlgorithm where
  | floydSteinberg
  | atkinson
  | bayer
  | stucki
  | jarvis
  | none
deriving DecidableEq, Repr

/-- The six-color palette `rgbPalette` (part_000 line 1374). -/
def rgbPalette : List ColorPaletteItem :=
  [⟨"黄色", 255, 255, 0, 0xe2⟩,
   ⟨"绿色", 41, 204, 20, 0x96⟩,
   ⟨"蓝色", 0, 0, 255, 0x1d⟩,
   ⟨"红色", 255, 0, 0, 0x4c⟩,
   ⟨"黑色", 0, 0, 0, 0x00⟩,
   ⟨"白色", 255, 255, 255, 0xff⟩]

/-- The four-color palette `fourColorPalette` (part_000 line 1384). -/
def fourColorPalette : List ColorPaletteItem :=
  [⟨"黑色", 0, 0, 0, 0x00⟩,
   ⟨"白色", 255, 255, 255, 0x01⟩,
   ⟨"红色", 255, 0, 0, 0x03⟩,
   ⟨"黄色", 255, 255, 0, 0x02⟩]

/-- The three-color palette `threeColorPalette` (part_000 line 1392). -/
def threeColorPalette : List ColorPaletteItem :=
  [⟨"黑色", 0, 0, 0, 0x00⟩,
   ⟨"白色", 255, 255, 255, 0x01⟩,
   ⟨"红色", 255, 0, 0, 0x02⟩]

/-- Shorthand for the blue entry `rgbPalette[2]` returned by the shortcut. -/
def rgbBlue : ColorPaletteItem := ⟨"蓝色", 0, 0, 255, 0x1d⟩

/-- Shorthand for `rgbPalette[4]` (black). -/
def rgbBlack : ColorPaletteItem := ⟨"黑色", 0, 0, 0, 0x00⟩

/-- Shorthand for `rgbPalette[5]` (white). -/
def rgbWhite : ColorPaletteItem := ⟨"白色", 255, 255, 255, 0xff⟩

/-- A browser `ImageData`: width, height and the flat RGBA byte store, embedded
as a total function (indices outside `4*width*height` are irrelevant junk for
the source code and are 0 for a well-formed image). -/
structure ImageData where
  width : ℕ
  height : ℕ
  data : ℕ → ℚ

/-- A well-formed image has no data beyond its `4*width*height` RGBA bytes,
matching the fixed length of the browser's `Uint8ClampedArray`. -/
def ImageData.WF (img : ImageData) : Prop :=
  ∀ i, 4 * img.width * img.height ≤ i → img.data i = 0

/-- A `Uint8Array`: allocated size plus contents (0 beyond the size, matching a
zero-initialised typed array). -/
structure Bytes where
  size : ℕ
  get : ℕ → ℕ

/-- The source's row-major pixel traversal: `for y … for x …`, producing the
`(y, x)` pairs in iteration order. -/
def pixelSeq (width height : ℕ) : List (ℕ × ℕ) :=
  (List.range height).flatMap fun y => (List.range width).map fun x => (y, x)

/-- JS `Math.round` for the nonnegative values used here: `⌊v + 1/2⌋`. -/
def jsRound (v : ℚ) : ℤ := ⌊v + 1/2⌋

/-- Round half to even, the rounding a `Uint8ClampedArray` store performs. -/
def roundHalfEven (v : ℚ) : ℤ :=
  if v - ⌊v⌋ < 1/2 then ⌊v⌋
  else if v - ⌊v⌋ > 1/2 then ⌊v⌋ + 1
  else if 2 ∣ ⌊v⌋ then ⌊v⌋ else ⌊v⌋ + 1

/-- A store into a `Uint8ClampedArray`: clamp to `[0, 255]` (the source also
wraps every store in `Math.min(255, Math.max(0, ·))`), then round half-even. -/
def cstore (v : ℚ) : ℚ := (roundHalfEven (min 255 (max 0 v)) : ℚ)

/-! ## Lab color space (part_000 `rgbToLab`, `labDistance`, lines 1414–1454)

The source performs `Math.pow(·, 2.4)` and cube roots on JS doubles; these are
embedded as real powers (`Real.rpow`). -/

/-- A CIE-Lab triple (the `{l, a, b}` record returned by `rgbToLab`). -/
structure Lab where
  l : ℝ
  a : ℝ
  b : ℝ

/-- sRGB gamma decode, the per-channel step of `rgbToLab`:
`c > 0.04045 ? ((c+0.055)/1.055)^2.4 : c/12.92`. -/
noncomputable def gammaExpand (c : ℝ) : ℝ :=
  if c > 0.04045 then ((c + 0.055) / 1.055) ^ (2.4 : ℝ) else c / 12.92

/-- The piecewise XYZ→Lab transfer step of `rgbToLab`:
`t > 0.008856 ? t^(1/3) : 7.787*t + 16/116`. -/
noncomputable def labF (t : ℝ) : ℝ :=
  if t > 0.008856 then t ^ ((1 : ℝ) / 3) else 7.787 * t + 16 / 116

/-- `rgbToLab(r, g, b)` (part_000 line 1414): normalise to [0,1], gamma decode,
scale by 100, convert to XYZ with D65 white, then to Lab. -/
noncomputable def rgbToLab (r g b : ℚ) : Lab :=
  let r1 : ℝ := gammaExpand ((r : ℝ) / 255) * 100
  let g1 : ℝ := gammaExpand ((g : ℝ) / 255) * 100
  let b1 : ℝ := gammaExpand ((b : ℝ) / 255) * 100
  let x := (r1 * 0.4124 + g1 * 0.3576 + b1 * 0.1805) / 95.047
  let y := (r1 * 0.2126 + g1 * 0.7152 + b1 * 0.0722) / 100
  let z := (r1 * 0.0193 + g1 * 0.1192 + b1 * 0.9505) / 108.883
  { l := 116 * labF y - 16
    a := 500 * (labF x - labF y)
    b := 200 * (labF y - labF z) }

/-- `labDistance` (part_000 line 1449): the weighted Euclidean distance
`sqrt(0.2·ΔL² + 3·Δa² + 3·Δb²)`. -/
noncomputable def labDistance (lab1 lab2 : Lab) : ℝ :=
  Real.sqrt (0.2 * (lab1.l - lab2.l) ^ 2 + 3 * (lab1.a - lab2.a) ^ 2
    + 3 * (lab1.b - lab2.b) ^ 2)

/-! ## `findClosestColor` (part_000 lines 1459–1500) -/

/-- The palette selection at the top of `findClosestColor`: `fourColorPalette`
for four-color mode, `threeColorPalette` for three-color mode, and the
six-color `rgbPalette` for every other mode (including two-color mode). -/
def selectPalette (mode : DitherMode) : List ColorPaletteItem :=
  if mode = .fourColor then fourColorPalette
  else if mode = .threeColor then threeColorPalette
  else rgbPalette

/-- The distance from an input color to a palette entry as computed inside the
search loop of `findClosestColor`. -/
noncomputable def entryDistance (r g b : ℚ) (color : ColorPaletteItem) : ℝ :=
  labDistance (rgbToLab r g b) (rgbToLab color.r color.g color.b)

/-- The `for (const color of palette)` minimum search of `findClosestColor`:
`minDistance` starts at `Infinity` (`⊤`), and an entry replaces the current
best only when its distance is strictly smaller, so the first entry attaining
the minimal distance wins. `closestColor` starts at `palette[0]` (`hd`). -/
noncomputable def labSearch (r g b : ℚ) (hd : ColorPaletteItem)
    (palette : List ColorPaletteItem) : ColorPaletteItem :=
  (palette.foldl
    (fun acc color =>
      if (entryDistance r g b color : WithTop ℝ) < acc.1
      then ((entryDistance r g b color : WithTop ℝ), color) else acc)
    ((⊤ : WithTop ℝ), hd)).2

/-- `findClosestColor(r, g, b, mode)` (part_000 line 1459): the blue shortcut
for every mode other than four- and three-color, the red/luminance shortcut
for three-color mode, then the Lab minimum search. -/
noncomputable def findClosestColor (r g b : ℚ) (mode : DitherMode) :
    ColorPaletteItem :=
  if mode ≠ .fourColor ∧ mode ≠ .threeColor ∧ r < 50 ∧ g < 150 ∧ b > 100 then
    rgbBlue
  else if mode = .threeColor then
    if r > 120 ∧ r > g * 1.5 ∧ r > b * 1.5 then
      ⟨"红色", 255, 0, 0, 0x02⟩
    else if 0.299 * r + 0.587 * g + 0.114 * b < 128 then
      ⟨"黑色", 0, 0, 0, 0x00⟩
    else
      ⟨"白色", 255, 255, 255, 0x01⟩
  else
    labSearch r g b ((selectPalette mode).headI) (selectPalette mode)

/-! ## Generic facts about the mutation folds -/

/-- An observation that every step of a fold preserves is preserved by the
whole fold. -/
theorem foldl_obs {σ α β : Type _} (step : σ → α → σ) (f : σ → β) :
    ∀ (l : List α) (st : σ), (∀ st' a, a ∈ l → f (step st' a) = f st') →
      f (l.foldl step st) = f st := by
  intro l
  induction l with
  | nil => intro st _; rfl
  | cons a t ih =>
    intro st h
    rw [List.foldl_cons, ih (step st a) (fun st' b hb => h st' b (List.mem_cons_of_mem a hb)),
      h st a (List.mem_cons_self a t)]

/-! ## The minimum search loop of `findClosestColor` -/

/-- One step of the `for (const color of palette)` loop. -/
noncomputable def minStep (d : ColorPaletteItem → ℝ)
    (acc : WithTop ℝ × ColorPaletteItem) (color : ColorPaletteItem) :
    WithTop ℝ × ColorPaletteItem :=
  if (d color : WithTop ℝ) < acc.1 then ((d color : WithTop ℝ), color) else acc

theorem labSearch_eq_minStep_fold (r g b : ℚ) (hd : ColorPaletteItem)
    (palette : List ColorPaletteItem) :
    labSearch r g b hd palette =
      (palette.foldl (minStep (entryDistance r g b)) ((⊤ : WithTop ℝ), hd)).2 := rfl

/-- The loop result is the initial candidate or one of the visited entries. -/
theorem minStep_fold_mem (d : ColorPaletteItem → ℝ) :
    ∀ (l : List ColorPaletteItem) (acc : WithTop ℝ × ColorPaletteItem),
      (l.foldl (minStep d) acc).2 = acc.2 ∨ (l.foldl (minStep d) acc).2 ∈ l := by
  intro l
  induction l with
  | nil => intro acc; exact Or.inl rfl
  | cons c t ih =>
    intro acc
    rw [List.foldl_cons]
    rcases ih (minStep d acc c) with h | h
    · rw [h]
      unfold minStep
      split
      · exact Or.inr (List.mem_cons_self c t)
      · exact Or.inl rfl
    · exact Or.inr (List.mem_cons_of_mem c h)

/-- Result entries never beat the running minimum from the right: if every
remaining distance is nonnegative and the accumulator already sits at distance
zero, the fold keeps it. -/
theorem minStep_fold_stay_zero (d : ColorPaletteItem → ℝ) (e : ColorPaletteItem) :
    ∀ (l : List ColorPaletteItem), (∀ f ∈ l, 0 ≤ d f) →
      l.foldl (minStep d) (((0 : ℝ) : WithTop ℝ), e) = (((0 : ℝ) : WithTop ℝ), e) := by
  intro l
  induction l with
  | nil => intro _; rfl
  | cons c t ih =>
    intro h
    rw [List.foldl_cons]
    have hc : ¬ ((d c : WithTop ℝ) < ((0 : ℝ) : WithTop ℝ)) := by
      rw [WithTop.coe_lt_coe]
      exact not_lt.mpr (h c (List.mem_cons_self c t))
    have : minStep d (((0 : ℝ) : WithTop ℝ), e) c = (((0 : ℝ) : WithTop ℝ), e) := by
      unfold minStep
      exact if_neg hc
    rw [this]
    exact ih (fun f hf => h f (List.mem_cons_of_mem c hf))

/-- If the palette splits as `l1 ++ e :: l2` where `e` is at distance zero,
every entry before `e` is at strictly positive distance and every entry after
`e` is at nonnegative distance, the loop returns `e`. -/
theorem minStep_fold_first_zero (d : ColorPaletteItem → ℝ) (e : ColorPaletteItem)
    (he : d e = 0) :
    ∀ (l1 : List ColorPaletteItem) (l2 : List ColorPaletteItem)
      (acc : WithTop ℝ × ColorPaletteItem),
      (∀ f ∈ l1, 0 < d f) → (∀ f ∈ l2, 0 ≤ d f) →
      ((0 : ℝ) : WithTop ℝ) < acc.1 →
      ((l1 ++ e :: l2).foldl (minStep d) acc).2 = e := by
  intro l1
  induction l1 with
  | nil =>
    intro l2 acc _ h2 hacc
    rw [List.nil_append, List.foldl_cons]
    have hstep : minStep d acc e = (((d e : ℝ) : WithTop ℝ), e) := by
      unfold minStep
      rw [if_pos (he ▸ hacc)]
    rw [hstep, he, minStep_fold_stay_zero d e l2 h2]
  | cons c t ih =>
    intro l2 acc h1 h2 hacc
    rw [List.cons_append, List.foldl_cons]
    refine ih l2 (minStep d acc c) (fun f hf => h1 f (List.mem_cons_of_mem c hf)) h2 ?_
    unfold minStep
    split
    · exact WithTop.coe_lt_coe.mpr (h1 c (List.mem_cons_self c t))
    · exact hacc

/-- The fold starting at the running state `(d c, c)` returns the first
minimal-distance entry of `c :: l`: the list splits around the result, entries
strictly before it have strictly larger distance, entries after it have larger
or equal distance. -/
theorem minStep_fold_first_min (d : ColorPaletteItem → ℝ) :
    ∀ (l : List ColorPaletteItem) (c : ColorPaletteItem),
      ∃ l1 l2, c :: l = l1 ++ (l.foldl (minStep d) (((d c : ℝ) : WithTop ℝ), c)).2 :: l2 ∧
        (∀ f ∈ l1, d (l.foldl (minStep d) (((d c : ℝ) : WithTop ℝ), c)).2 < d f) ∧
        (∀ f ∈ l2, d (l.foldl (minStep d) (((d c : ℝ) : WithTop ℝ), c)).2 ≤ d f) := by
  intro l
  induction l with
  | nil =>
    intro c
    exact ⟨[], [], rfl, by simp, by simp⟩
  | cons f t ih =>
    intro c
    rw [List.foldl_cons]
    by_cases hfc : d f < d c
    · have hstep : minStep d (((d c : ℝ) : WithTop ℝ), c) f = (((d f : ℝ) : WithTop ℝ), f) := by
        unfold minStep
        rw [if_pos (WithTop.coe_lt_coe.mpr hfc)]
      rw [hstep]
      obtain ⟨l1, l2, hsplit, hbefore, hafter⟩ := ih f
      set r := (t.foldl (minStep d) (((d f : ℝ) : WithTop ℝ), f)).2 with hr
      have hle : ∀ y ∈ f :: t, d r ≤ d y := by
        intro y hy
        rw [hsplit] at hy
        rcases List.mem_append.mp hy with hy1 | hy2
        · exact le_of_lt (hbefore y hy1)
        · rcases List.mem_cons.mp hy2 with hy2 | hy2
          · rw [hy2]
          · exact hafter y hy2
      refine ⟨c :: l1, l2, by rw [List.cons_append, hsplit], ?_, hafter⟩
      intro y hy
      rcases List.mem_cons.mp hy with hy | hy
      · rw [hy]
        exact lt_of_le_of_lt (hle f (List.mem_cons_self f t)) hfc
      · exact hbefore y hy
    · have hstep : minStep d (((d c : ℝ) : WithTop ℝ), c) f = (((d c : ℝ) : WithTop ℝ), c) := by
        unfold minStep
        rw [if_neg (fun hcon => hfc (WithTop.coe_lt_coe.mp hcon))]
      rw [hstep]
      obtain ⟨l1, l2, hsplit, hbefore, hafter⟩ := ih c
      set r := (t.foldl (minStep d) (((d c : ℝ) : WithTop ℝ), c)).2 with hr
      match l1, hsplit with
      | [], hsplit =>
        have hrc : c = r := by
          have := congrArg (fun ll => List.head? ll) hsplit
          simpa using this
        have htl : t = l2 := by
          have := congrArg (fun ll => List.tail ll) hsplit
          simpa using this
        refine ⟨[], f :: t, by rw [← hrc, List.nil_append], by simp, ?_⟩
        intro y hy
        rcases List.mem_cons.mp hy with hy | hy
        · rw [hy, ← hrc]
          exact not_lt.mp hfc
        · rw [htl] at hy
          exact hafter y hy
      | z :: l1', hsplit =>
        have hz : z = c := by
          have := congrArg (fun ll => List.head? ll) hsplit
          simpa using this.symm
        have htl : t = l1' ++ r :: l2 := by
          have := congrArg (fun ll => List.tail ll) hsplit
          simpa using this
        have hrc : d r < d c := hbefore c (by rw [hz]; exact List.mem_cons_self c _)
        refine ⟨c :: f :: l1', l2, by rw [List.cons_append, List.cons_append, htl], ?_, hafter⟩
        intro y hy
        rcases List.mem_cons.mp hy with hy | hy
        · rw [hy]; exact hrc
        · rcases List.mem_cons.mp hy with hy | hy
          · rw [hy]
            exact lt_of_lt_of_le hrc (not_lt.mp hfc)
          · exact hbefore y (List.mem_cons_of_mem z hy)

/-! ## Metric facts about `labDistance` -/

theorem labDistance_self (lab : Lab) : labDistance lab lab = 0 := by
  unfold labDistance
  simp [Real.sqrt_eq_zero']

theorem labDistance_nonneg (lab1 lab2 : Lab) : 0 ≤ labDistance lab1 lab2 :=
  Real.sqrt_nonneg _

theorem labDistance_pos (lab1 lab2 : Lab) (h : lab1.l ≠ lab2.l) :
    0 < labDistance lab1 lab2 := by
  unfold labDistance
  refine Real.sqrt_pos.mpr ?_
  have h1 : 0 < (lab1.l - lab2.l) ^ 2 := pow_two_pos_of_ne_zero (sub_ne_zero.mpr h)
  nlinarith [sq_nonneg (lab1.a - lab2.a), sq_nonneg (lab1.b - lab2.b)]

theorem entryDistance_nonneg (r g b : ℚ) (c : ColorPaletteItem) :
    0 ≤ entryDistance r g b c := Real.sqrt_nonneg _

theorem entryDistance_self (r g b : ℚ) (c : ColorPaletteItem)
    (hr : c.r = r) (hg : c.g = g) (hb : c.b = b) : entryDistance r g b c = 0 := by
  unfold entryDistance
  rw [hr, hg, hb]
  exact labDistance_self _

theorem entryDistance_pos (r g b : ℚ) (c : ColorPaletteItem)
    (h : (rgbToLab r g b).l ≠ (rgbToLab c.r c.g c.b).l) :
    0 < entryDistance r g b c := labDistance_pos _ _ h

/-! ## Exact L-channel values of the palette colors -/

theorem gammaExpand_zero : gammaExpand 0 = 0 := by
  unfold gammaExpand
  rw [if_neg (by norm_num)]
  norm_num

theorem gammaExpand_one : gammaExpand 1 = 1 := by
  unfold gammaExpand
  rw [if_pos (by norm_num), show ((1:ℝ) + 0.055) / 1.055 = 1 by norm_num, Real.one_rpow]

theorem gammaExpand_nonneg {c : ℝ} (h : 0 ≤ c) : 0 ≤ gammaExpand c := by
  unfold gammaExpand
  split
  · exact Real.rpow_nonneg (by positivity) _
  · positivity

theorem gammaExpand_le_sq {c : ℝ} (h1 : 0.04045 < c) (h2 : c ≤ 1) :
    gammaExpand c ≤ ((c + 0.055) / 1.055) ^ (2 : ℕ) := by
  unfold gammaExpand
  rw [if_pos h1, ← Real.rpow_natCast ((c + 0.055) / 1.055) 2]
  refine Real.rpow_le_rpow_of_exponent_ge (div_pos (by linarith) (by norm_num)) ?_ (by norm_num)
  rw [div_le_one (by norm_num)]
  linarith

theorem cube_le_gammaExpand {c : ℝ} (h1 : 0.04045 < c) (h2 : c ≤ 1) :
    ((c + 0.055) / 1.055) ^ (3 : ℕ) ≤ gammaExpand c := by
  unfold gammaExpand
  rw [if_pos h1, ← Real.rpow_natCast ((c + 0.055) / 1.055) 3]
  refine Real.rpow_le_rpow_of_exponent_ge (div_pos (by linarith) (by norm_num)) ?_ (by norm_num)
  rw [div_le_one (by norm_num)]
  linarith

theorem labF_one : labF 1 = 1 := by
  unfold labF
  rw [if_pos (by norm_num), Real.one_rpow]

theorem labF_zero : labF 0 = 16 / 116 := by
  unfold labF
  rw [if_neg (by norm_num)]
  ring

theorem labF_cube {t : ℝ} (h : 0.008856 < t) : labF t = t ^ ((1 : ℝ) / 3) := by
  unfold labF
  exact if_pos h

theorem rgbToLab_l (r g b : ℚ) : (rgbToLab r g b).l =
    116 * labF ((gammaExpand ((r : ℝ) / 255) * 100 * 0.2126
      + gammaExpand ((g : ℝ) / 255) * 100 * 0.7152
      + gammaExpand ((b : ℝ) / 255) * 100 * 0.0722) / 100) - 16 := rfl

theorem l_val_black : (rgbToLab 0 0 0).l = 0 := by
  rw [rgbToLab_l, show (((0:ℚ)) : ℝ) / 255 = 0 by norm_num, gammaExpand_zero,
    show ((0:ℝ) * 100 * 0.2126 + 0 * 100 * 0.7152 + 0 * 100 * 0.0722) / 100 = (0:ℝ) by norm_num,
    labF_zero]
  norm_num

theorem l_val_white : (rgbToLab 255 255 255).l = 100 := by
  rw [rgbToLab_l, show (((255:ℚ)) : ℝ) / 255 = 1 by norm_num, gammaExpand_one,
    show ((1:ℝ) * 100 * 0.2126 + 1 * 100 * 0.7152 + 1 * 100 * 0.0722) / 100 = (1:ℝ) by norm_num,
    labF_one]
  norm_num

theorem l_val_red : (rgbToLab 255 0 0).l = 116 * (0.2126 : ℝ) ^ ((1 : ℝ) / 3) - 16 := by
  rw [rgbToLab_l, show (((255:ℚ)) : ℝ) / 255 = 1 by norm_num,
    show (((0:ℚ)) : ℝ) / 255 = 0 by norm_num, gammaExpand_one, gammaExpand_zero,
    show ((1:ℝ) * 100 * 0.2126 + 0 * 100 * 0.7152 + 0 * 100 * 0.0722) / 100 = (0.2126:ℝ)
      by norm_num,
    labF_cube (by norm_num)]

theorem l_val_yellow : (rgbToLab 255 255 0).l = 116 * (0.9278 : ℝ) ^ ((1 : ℝ) / 3) - 16 := by
  rw [rgbToLab_l, show (((255:ℚ)) : ℝ) / 255 = 1 by norm_num,
    show (((0:ℚ)) : ℝ) / 255 = 0 by norm_num, gammaExpand_one, gammaExpand_zero,
    show ((1:ℝ) * 100 * 0.2126 + 1 * 100 * 0.7152 + 0 * 100 * 0.0722) / 100 = (0.9278:ℝ)
      by norm_num,
    labF_cube (by norm_num)]

theorem l_val_blue : (rgbToLab 0 0 255).l = 116 * (0.0722 : ℝ) ^ ((1 : ℝ) / 3) - 16 := by
  rw [rgbToLab_l, show (((255:ℚ)) : ℝ) / 255 = 1 by norm_num,
    show (((0:ℚ)) : ℝ) / 255 = 0 by norm_num, gammaExpand_one, gammaExpand_zero,
    show ((0:ℝ) * 100 * 0.2126 + 0 * 100 * 0.7152 + 1 * 100 * 0.0722) / 100 = (0.0722:ℝ)
      by norm_num,
    labF_cube (by norm_num)]

/-- The green palette color's luminance channel `y`, bounded using
`x^3 ≤ x^2.4 ≤ x^2` for bases in `(0, 1]`. -/
theorem green_y_bounds :
    (0.38 : ℝ) < (gammaExpand ((41 : ℝ) / 255) * 100 * 0.2126
      + gammaExpand ((204 : ℝ) / 255) * 100 * 0.7152
      + gammaExpand ((20 : ℝ) / 255) * 100 * 0.0722) / 100 ∧
    (gammaExpand ((41 : ℝ) / 255) * 100 * 0.2126
      + gammaExpand ((204 : ℝ) / 255) * 100 * 0.7152
      + gammaExpand ((20 : ℝ) / 255) * 100 * 0.0722) / 100 < (0.48 : ℝ) := by
  have hub1 := gammaExpand_le_sq (c := (41 : ℝ) / 255) (by norm_num) (by norm_num)
  have hub2 := gammaExpand_le_sq (c := (204 : ℝ) / 255) (by norm_num) (by norm_num)
  have hub3 := gammaExpand_le_sq (c := (20 : ℝ) / 255) (by norm_num) (by norm_num)
  have hlb2 := cube_le_gammaExpand (c := (204 : ℝ) / 255) (by norm_num) (by norm_num)
  have hnn1 := gammaExpand_nonneg (c := (41 : ℝ) / 255) (by norm_num)
  have hnn3 := gammaExpand_nonneg (c := (20 : ℝ) / 255) (by norm_num)
  norm_num at hub1 hub2 hub3 hlb2
  constructor
  · nlinarith
  · nlinarith

theorem l_val_green_lb : 116 * (0.38 : ℝ) ^ ((1 : ℝ) / 3) - 16 < (rgbToLab 41 204 20).l := by
  rw [rgbToLab_l]
  have hb := green_y_bounds
  push_cast at hb ⊢
  rw [labF_cube (by linarith [hb.1])]
  have := Real.rpow_lt_rpow (x := (0.38 : ℝ)) (by norm_num) hb.1 (z := (1 : ℝ) / 3) (by norm_num)
  linarith

theorem l_val_green_ub : (rgbToLab 41 204 20).l < 116 * (0.48 : ℝ) ^ ((1 : ℝ) / 3) - 16 := by
  rw [rgbToLab_l]
  have hb := green_y_bounds
  push_cast at hb ⊢
  rw [labF_cube (by linarith [hb.1])]
  have := Real.rpow_lt_rpow
    (x := (gammaExpand ((41 : ℝ) / 255) * 100 * 0.2126
      + gammaExpand ((204 : ℝ) / 255) * 100 * 0.7152
      + gammaExpand ((20 : ℝ) / 255) * 100 * 0.0722) / 100) (by linarith [hb.1]) hb.2
    (z := (1 : ℝ) / 3) (by norm_num)
  linarith

/-! ## Comparison helpers in the `116·t^(1/3) − 16` form -/

theorem cube_lt_cube {p q : ℝ} (hp : 0 ≤ p) (h : p < q) :
    116 * p ^ ((1 : ℝ) / 3) - 16 < 116 * q ^ ((1 : ℝ) / 3) - 16 := by
  have := Real.rpow_lt_rpow hp h (z := (1 : ℝ) / 3) (by norm_num)
  linarith

theorem cube_l_pos {q : ℝ} (h : (0.003 : ℝ) < q) :
    (0 : ℝ) < 116 * q ^ ((1 : ℝ) / 3) - 16 := by
  have h3 : ((16 : ℝ) / 116) = (((16 : ℝ) / 116) ^ (3 : ℕ)) ^ ((1 : ℝ) / 3) := by
    rw [← Real.rpow_natCast ((16 : ℝ) / 116) 3, ← Real.rpow_mul (by norm_num)]
    norm_num
  have h4 : (16 : ℝ) / 116 < q ^ ((1 : ℝ) / 3) := by
    rw [h3]
    refine Real.rpow_lt_rpow (by positivity) ?_ (by norm_num)
    have : ((16 : ℝ) / 116) ^ (3 : ℕ) < 0.003 := by norm_num
    linarith
  linarith

theorem cube_l_lt_100 {q : ℝ} (h0 : 0 ≤ q) (h : q < 1) :
    116 * q ^ ((1 : ℝ) / 3) - 16 < 100 := by
  have := Real.rpow_lt_one h0 h (z := (1 : ℝ) / 3) (by norm_num)
  linarith

/-! ## `findClosestColor` fixes every entry of the palette it searches -/

theorem closest_four_black :
    findClosestColor 0 0 0 .fourColor = ⟨"黑色", 0, 0, 0, 0x00⟩ := by
  unfold findClosestColor
  rw [if_neg (by simp), if_neg (by simp),
    show selectPalette .fourColor = fourColorPalette from rfl,
    show fourColorPalette.headI = ⟨"黑色", 0, 0, 0, 0x00⟩ from rfl,
    labSearch_eq_minStep_fold,
    show fourColorPalette = [] ++ (⟨"黑色", 0, 0, 0, 0x00⟩ : ColorPaletteItem) ::
      [⟨"白色", 255, 255, 255, 0x01⟩, ⟨"红色", 255, 0, 0, 0x03⟩,
       ⟨"黄色", 255, 255, 0, 0x02⟩] from rfl]
  refine minStep_fold_first_zero (entryDistance 0 0 0)
    (⟨"黑色", 0, 0, 0, 0x00⟩ : ColorPaletteItem)
    (entryDistance_self _ _ _ _ rfl rfl rfl) [] _ _
    (by intro f hf; simp at hf) (fun f _ => entryDistance_nonneg _ _ _ _) ?_
  exact WithTop.coe_lt_top 0

theorem closest_four_white :
    findClosestColor 255 255 255 .fourColor = ⟨"白色", 255, 255, 255, 0x01⟩ := by
  unfold findClosestColor
  rw [if_neg (by simp), if_neg (by simp),
    show selectPalette .fourColor = fourColorPalette from rfl,
    show fourColorPalette.headI = ⟨"黑色", 0, 0, 0, 0x00⟩ from rfl,
    labSearch_eq_minStep_fold,
    show fourColorPalette = [⟨"黑色", 0, 0, 0, 0x00⟩] ++
      (⟨"白色", 255, 255, 255, 0x01⟩ : ColorPaletteItem) ::
      [⟨"红色", 255, 0, 0, 0x03⟩, ⟨"黄色", 255, 255, 0, 0x02⟩] from rfl]
  refine minStep_fold_first_zero (entryDistance 255 255 255)
    (⟨"白色", 255, 255, 255, 0x01⟩ : ColorPaletteItem)
    (entryDistance_self _ _ _ _ rfl rfl rfl) [⟨"黑色", 0, 0, 0, 0x00⟩] _ _
    ?_ (fun f _ => entryDistance_nonneg _ _ _ _) (WithTop.coe_lt_top 0)
  intro f hf
  simp only [List.mem_singleton] at hf
  subst hf
  refine entryDistance_pos _ _ _ _ ?_
  rw [l_val_white]
  show (100 : ℝ) ≠ (rgbToLab 0 0 0).l
  rw [l_val_black]
  norm_num

theorem closest_four_red :
    findClosestColor 255 0 0 .fourColor = ⟨"红色", 255, 0, 0, 0x03⟩ := by
  unfold findClosestColor
  rw [if_neg (by simp), if_neg (by simp),
    show selectPalette .fourColor = fourColorPalette from rfl,
    show fourColorPalette.headI = ⟨"黑色", 0, 0, 0, 0x00⟩ from rfl,
    labSearch_eq_minStep_fold,
    show fourColorPalette = [⟨"黑色", 0, 0, 0, 0x00⟩, ⟨"白色", 255, 255, 255, 0x01⟩] ++
      (⟨"红色", 255, 0, 0, 0x03⟩ : ColorPaletteItem) ::
      [⟨"黄色", 255, 255, 0, 0x02⟩] from rfl]
  refine minStep_fold_first_zero (entryDistance 255 0 0)
    (⟨"红色", 255, 0, 0, 0x03⟩ : ColorPaletteItem)
    (entryDistance_self _ _ _ _ rfl rfl rfl)
    [⟨"黑色", 0, 0, 0, 0x00⟩, ⟨"白色", 255, 255, 255, 0x01⟩] _ _
    ?_ (fun f _ => entryDistance_nonneg _ _ _ _) (WithTop.coe_lt_top 0)
  intro f hf
  simp only [List.mem_cons, List.not_mem_nil, or_false] at hf
  rcases hf with rfl | rfl
  · refine entryDistance_pos _ _ _ _ ?_
    show (rgbToLab 255 0 0).l ≠ (rgbToLab 0 0 0).l
    rw [l_val_red, l_val_black]
    exact ne_of_gt (cube_l_pos (by norm_num))
  · refine entryDistance_pos _ _ _ _ ?_
    show (rgbToLab 255 0 0).l ≠ (rgbToLab 255 255 255).l
    rw [l_val_red, l_val_white]
    exact ne_of_lt (cube_l_lt_100 (by norm_num) (by norm_num))

theorem closest_four_yellow :
    findClosestColor 255 255 0 .fourColor = ⟨"黄色", 255, 255, 0, 0x02⟩ := by
  unfold findClosestColor
  rw [if_neg (by simp), if_neg (by simp),
    show selectPalette .fourColor = fourColorPalette from rfl,
    show fourColorPalette.headI = ⟨"黑色", 0, 0, 0, 0x00⟩ from rfl,
    labSearch_eq_minStep_fold,
    show fourColorPalette = [⟨"黑色", 0, 0, 0, 0x00⟩, ⟨"白色", 255, 255, 255, 0x01⟩,
      ⟨"红色", 255, 0, 0, 0x03⟩] ++
      (⟨"黄色", 255, 255, 0, 0x02⟩ : ColorPaletteItem) :: [] from rfl]
  refine minStep_fold_first_zero (entryDistance 255 255 0)
    (⟨"黄色", 255, 255, 0, 0x02⟩ : ColorPaletteItem)
    (entryDistance_self _ _ _ _ rfl rfl rfl)
    [⟨"黑色", 0, 0, 0, 0x00⟩, ⟨"白色", 255, 255, 255, 0x01⟩, ⟨"红色", 255, 0, 0, 0x03⟩] _ _
    ?_ (fun f _ => entryDistance_nonneg _ _ _ _) (WithTop.coe_lt_top 0)
  intro f hf
  simp only [List.mem_cons, List.not_mem_nil, or_false] at hf
  rcases hf with rfl | rfl | rfl
  · refine entryDistance_pos _ _ _ _ ?_
    show (rgbToLab 255 255 0).l ≠ (rgbToLab 0 0 0).l
    rw [l_val_yellow, l_val_black]
    exact ne_of_gt (cube_l_pos (by norm_num))
  · refine entryDistance_pos _ _ _ _ ?_
    show (rgbToLab 255 255 0).l ≠ (rgbToLab 255 255 255).l
    rw [l_val_yellow, l_val_white]
    exact ne_of_lt (cube_l_lt_100 (by norm_num) (by norm_num))
  · refine entryDistance_pos _ _ _ _ ?_
    show (rgbToLab 255 255 0).l ≠ (rgbToLab 255 0 0).l
    rw [l_val_yellow, l_val_red]
    exact ne_of_gt (cube_lt_cube (by norm_num) (by norm_num))

theorem closest_six_yellow :
    findClosestColor 255 255 0 .sixColor = ⟨"黄色", 255, 255, 0, 0xe2⟩ := by
  unfold findClosestColor
  rw [if_neg (by norm_num), if_neg (by simp),
    show selectPalette .sixColor = rgbPalette from rfl,
    show rgbPalette.headI = ⟨"黄色", 255, 255, 0, 0xe2⟩ from rfl,
    labSearch_eq_minStep_fold,
    show rgbPalette = [] ++ (⟨"黄色", 255, 255, 0, 0xe2⟩ : ColorPaletteItem) ::
      [⟨"绿色", 41, 204, 20, 0x96⟩, ⟨"蓝色", 0, 0, 255, 0x1d⟩, ⟨"红色", 255, 0, 0, 0x4c⟩,
       ⟨"黑色", 0, 0, 0, 0x00⟩, ⟨"白色", 255, 255, 255, 0xff⟩] from rfl]
  exact minStep_fold_first_zero (entryDistance 255 255 0)
    (⟨"黄色", 255, 255, 0, 0xe2⟩ : ColorPaletteItem)
    (entryDistance_self _ _ _ _ rfl rfl rfl) [] _ _
    (by intro f hf; simp at hf) (fun f _ => entryDistance_nonneg _ _ _ _)
    (WithTop.coe_lt_top 0)

theorem closest_six_green :
    findClosestColor 41 204 20 .sixColor = ⟨"绿色", 41, 204, 20, 0x96⟩ := by
  unfold findClosestColor
  rw [if_neg (by norm_num), if_neg (by simp),
    show selectPalette .sixColor = rgbPalette from rfl,
    show rgbPalette.headI = ⟨"黄色", 255, 255, 0, 0xe2⟩ from rfl,
    labSearch_eq_minStep_fold,
    show rgbPalette = [⟨"黄色", 255, 255, 0, 0xe2⟩] ++
      (⟨"绿色", 41, 204, 20, 0x96⟩ : ColorPaletteItem) ::
      [⟨"蓝色", 0, 0, 255, 0x1d⟩, ⟨"红色", 255, 0, 0, 0x4c⟩,
       ⟨"黑色", 0, 0, 0, 0x00⟩, ⟨"白色", 255, 255, 255, 0xff⟩] from rfl]
  refine minStep_fold_first_zero (entryDistance 41 204 20)
    (⟨"绿色", 41, 204, 20, 0x96⟩ : ColorPaletteItem)
    (entryDistance_self _ _ _ _ rfl rfl rfl) [⟨"黄色", 255, 255, 0, 0xe2⟩] _ _
    ?_ (fun f _ => entryDistance_nonneg _ _ _ _) (WithTop.coe_lt_top 0)
  intro f hf
  simp only [List.mem_singleton] at hf
  subst hf
  refine entryDistance_pos _ _ _ _ ?_
  show (rgbToLab 41 204 20).l ≠ (rgbToLab 255 255 0).l
  rw [l_val_yellow]
  exact ne_of_lt (lt_trans l_val_green_ub (cube_lt_cube (by norm_num) (by norm_num)))

theorem closest_six_blue :
    findClosestColor 0 0 255 .sixColor = ⟨"蓝色", 0, 0, 255, 0x1d⟩ := by
  unfold findClosestColor
  rw [if_pos ⟨by simp, by simp, by norm_num, by norm_num, by norm_num⟩]
  rfl

theorem closest_six_red :
    findClosestColor 255 0 0 .sixColor = ⟨"红色", 255, 0, 0, 0x4c⟩ := by
  unfold findClosestColor
  rw [if_neg (by norm_num), if_neg (by simp),
    show selectPalette .sixColor = rgbPalette from rfl,
    show rgbPalette.headI = ⟨"黄色", 255, 255, 0, 0xe2⟩ from rfl,
    labSearch_eq_minStep_fold,
    show rgbPalette = [⟨"黄色", 255, 255, 0, 0xe2⟩, ⟨"绿色", 41, 204, 20, 0x96⟩,
      ⟨"蓝色", 0, 0, 255, 0x1d⟩] ++
      (⟨"红色", 255, 0, 0, 0x4c⟩ : ColorPaletteItem) ::
      [⟨"黑色", 0, 0, 0, 0x00⟩, ⟨"白色", 255, 255, 255, 0xff⟩] from rfl]
  refine minStep_fold_first_zero (entryDistance 255 0 0)
    (⟨"红色", 255, 0, 0, 0x4c⟩ : ColorPaletteItem)
    (entryDistance_self _ _ _ _ rfl rfl rfl)
    [⟨"黄色", 255, 255, 0, 0xe2⟩, ⟨"绿色", 41, 204, 20, 0x96⟩, ⟨"蓝色", 0, 0, 255, 0x1d⟩] _ _
    ?_ (fun f _ => entryDistance_nonneg _ _ _ _) (WithTop.coe_lt_top 0)
  intro f hf
  simp only [List.mem_cons, List.not_mem_nil, or_false] at hf
  rcases hf with rfl | rfl | rfl
  · refine entryDistance_pos _ _ _ _ ?_
    show (rgbToLab 255 0 0).l ≠ (rgbToLab 255 255 0).l
    rw [l_val_red, l_val_yellow]
    exact ne_of_lt (cube_lt_cube (by norm_num) (by norm_num))
  · refine entryDistance_pos _ _ _ _ ?_
    show (rgbToLab 255 0 0).l ≠ (rgbToLab 41 204 20).l
    rw [l_val_red]
    exact ne_of_lt (lt_trans (cube_lt_cube (by norm_num) (by norm_num)) l_val_green_lb)
  · refine entryDistance_pos _ _ _ _ ?_
    show (rgbToLab 255 0 0).l ≠ (rgbToLab 0 0 255).l
    rw [l_val_red, l_val_blue]
    exact ne_of_gt (cube_lt_cube (by norm_num) (by norm_num))

theorem closest_six_black :
    findClosestColor 0 0 0 .sixColor = ⟨"黑色", 0, 0, 0, 0x00⟩ := by
  unfold findClosestColor
  rw [if_neg (by norm_num), if_neg (by simp),
    show selectPalette .sixColor = rgbPalette from rfl,
    show rgbPalette.headI = ⟨"黄色", 255, 255, 0, 0xe2⟩ from rfl,
    labSearch_eq_minStep_fold,
    show rgbPalette = [⟨"黄色", 255, 255, 0, 0xe2⟩, ⟨"绿色", 41, 204, 20, 0x96⟩,
      ⟨"蓝色", 0, 0, 255, 0x1d⟩, ⟨"红色", 255, 0, 0, 0x4c⟩] ++
      (⟨"黑色", 0, 0, 0, 0x00⟩ : ColorPaletteItem) ::
      [⟨"白色", 255, 255, 255, 0xff⟩] from rfl]
  refine minStep_fold_first_zero (entryDistance 0 0 0)
    (⟨"黑色", 0, 0, 0, 0x00⟩ : ColorPaletteItem)
    (entryDistance_self _ _ _ _ rfl rfl rfl)
    [⟨"黄色", 255, 255, 0, 0xe2⟩, ⟨"绿色", 41, 204, 20, 0x96⟩,
     ⟨"蓝色", 0, 0, 255, 0x1d⟩, ⟨"红色", 255, 0, 0, 0x4c⟩] _ _
    ?_ (fun f _ => entryDistance_nonneg _ _ _ _) (WithTop.coe_lt_top 0)
  intro f hf
  simp only [List.mem_cons, List.not_mem_nil, or_false] at hf
  rcases hf with rfl | rfl | rfl | rfl
  · refine entryDistance_pos _ _ _ _ ?_
    show (rgbToLab 0 0 0).l ≠ (rgbToLab 255 255 0).l
    rw [l_val_black, l_val_yellow]
    exact ne_of_lt (cube_l_pos (by norm_num))
  · refine entryDistance_pos _ _ _ _ ?_
    show (rgbToLab 0 0 0).l ≠ (rgbToLab 41 204 20).l
    rw [l_val_black]
    exact ne_of_lt (lt_trans (cube_l_pos (by norm_num)) l_val_green_lb)
  · refine entryDistance_pos _ _ _ _ ?_
    show (rgbToLab 0 0 0).l ≠ (rgbToLab 0 0 255).l
    rw [l_val_black, l_val_blue]
    exact ne_of_lt (cube_l_pos (by norm_num))
  · refine entryDistance_pos _ _ _ _ ?_
    show (rgbToLab 0 0 0).l ≠ (rgbToLab 255 0 0).l
    rw [l_val_black, l_val_red]
    exact ne_of_lt (cube_l_pos (by norm_num))

theorem closest_six_white :
    findClosestColor 255 255 255 .sixColor = ⟨"白色", 255, 255, 255, 0xff⟩ := by
  unfold findClosestColor
  rw [if_neg (by norm_num), if_neg (by simp),
    show selectPalette .sixColor = rgbPalette from rfl,
    show rgbPalette.headI = ⟨"黄色", 255, 255, 0, 0xe2⟩ from rfl,
    labSearch_eq_minStep_fold,
    show rgbPalette = [⟨"黄色", 255, 255, 0, 0xe2⟩, ⟨"绿色", 41, 204, 20, 0x96⟩,
      ⟨"蓝色", 0, 0, 255, 0x1d⟩, ⟨"红色", 255, 0, 0, 0x4c⟩, ⟨"黑色", 0, 0, 0, 0x00⟩] ++
      (⟨"白色", 255, 255, 255, 0xff⟩ : ColorPaletteItem) :: [] from rfl]
  refine minStep_fold_first_zero (entryDistance 255 255 255)
    (⟨"白色", 255, 255, 255, 0xff⟩ : ColorPaletteItem)
    (entryDistance_self _ _ _ _ rfl rfl rfl)
    [⟨"黄色", 255, 255, 0, 0xe2⟩, ⟨"绿色", 41, 204, 20, 0x96⟩,
     ⟨"蓝色", 0, 0, 255, 0x1d⟩, ⟨"红色", 255, 0, 0, 0x4c⟩, ⟨"黑色", 0, 0, 0, 0x00⟩] _ _
    ?_ (fun f _ => entryDistance_nonneg _ _ _ _) (WithTop.coe_lt_top 0)
  intro f hf
  simp only [List.mem_cons, List.not_mem_nil, or_false] at hf
  rcases hf with rfl | rfl | rfl | rfl | rfl
  · refine entryDistance_pos _ _ _ _ ?_
    show (rgbToLab 255 255 255).l ≠ (rgbToLab 255 255 0).l
    rw [l_val_white, l_val_yellow]
    exact ne_of_gt (cube_l_lt_100 (by norm_num) (by norm_num))
  · refine entryDistance_pos _ _ _ _ ?_
    show (rgbToLab 255 255 255).l ≠ (rgbToLab 41 204 20).l
    rw [l_val_white]
    exact ne_of_gt (lt_trans l_val_green_ub (cube_l_lt_100 (by norm_num) (by norm_num)))
  · refine entryDistance_pos _ _ _ _ ?_
    show (rgbToLab 255 255 255).l ≠ (rgbToLab 0 0 255).l
    rw [l_val_white, l_val_blue]
    exact ne_of_gt (cube_l_lt_100 (by norm_num) (by norm_num))
  · refine entryDistance_pos _ _ _ _ ?_
    show (rgbToLab 255 255 255).l ≠ (rgbToLab 255 0 0).l
    rw [l_val_white, l_val_red]
    exact ne_of_gt (cube_l_lt_100 (by norm_num) (by norm_num))
  · refine entryDistance_pos _ _ _ _ ?_
    show (rgbToLab 255 255 255).l ≠ (rgbToLab 0 0 0).l
    rw [l_val_white, l_val_black]
    norm_num

/-! ## `processImageData` (part_000 lines 2026–2124)

Each branch allocates a `Uint8Array` of a fixed size and mutates it over the
row-major pixel loop; the loop body becomes a named step function folded over
`pixelSeq`, starting from the all-zero array. -/

/-- The luminance threshold bit shared by the two-color branch and the
black/white plane of the three-color branch:
`Math.round(0.299r + 0.587g + 0.114b) >= 140 ? 1 : 0`. -/
def lumBit (data : ℕ → ℚ) (width y x : ℕ) : ℕ :=
  if jsRound (0.299 * data ((y * width + x) * 4) + 0.587 * data ((y * width + x) * 4 + 1)
    + 0.114 * data ((y * width + x) * 4 + 2)) ≥ 140 then 1 else 0

/-- The red-detection bit of the three-color branch:
`(r > 160 && r > g && r > b) ? 0 : 1`. -/
def redBit (data : ℕ → ℚ) (width y x : ℕ) : ℕ :=
  if data ((y * width + x) * 4) > 160 ∧
      data ((y * width + x) * 4) > data ((y * width + x) * 4 + 1) ∧
      data ((y * width + x) * 4) > data ((y * width + x) * 4 + 2) then 0 else 1

/-- Six-color loop body: store the device code at the column-major
bottom-to-top index `x*height + (height-1-y)`. -/
noncomputable def sixStep (width height : ℕ) (data : ℕ → ℚ) (st : ℕ → ℕ)
    (p : ℕ × ℕ) : ℕ → ℕ :=
  let index := (p.1 * width + p.2) * 4
  let closest := findClosestColor (data index) (data (index + 1)) (data (index + 2)) .sixColor
  Function.update st (p.2 * height + (height - 1 - p.1)) closest.value

/-- Four-color loop body: OR the 2-bit device code at shift `6 - (x%4)*2` into
byte `(y*width+x)/4` (the source's `| 0` is truncation, i.e. ℕ division). -/
noncomputable def fourStep (width : ℕ) (data : ℕ → ℚ) (st : ℕ → ℕ)
    (p : ℕ × ℕ) : ℕ → ℕ :=
  let index := (p.1 * width + p.2) * 4
  let closest := findClosestColor (data index) (data (index + 1)) (data (index + 2)) .fourColor
  let newIndex := (p.1 * width + p.2) / 4
  let shift := 6 - p.2 % 4 * 2
  Function.update st newIndex (st newIndex ||| (closest.value <<< shift))

/-- Two-color loop body: OR the luminance bit at position `7 - x%8` into byte
`y*byteWidth + x/8`. -/
def bwStep (width byteWidth : ℕ) (data : ℕ → ℚ) (st : ℕ → ℕ) (p : ℕ × ℕ) : ℕ → ℕ :=
  let bit := lumBit data width p.1 p.2
  let byteIndex := p.1 * byteWidth + p.2 / 8
  let bitIndex := 7 - p.2 % 8
  Function.update st byteIndex (st byteIndex ||| (bit <<< bitIndex))

/-- Three-color loop body over the pair of planes, with the source's set-bit
(`|=`) and clear-bit (`&= ~`) branches.  JS `~` complements 32-bit integers;
on these byte-sized values the clear is `&&& (0xFF ^^^ mask)`. -/
def threeStep (width byteWidth : ℕ) (data : ℕ → ℚ) (st : (ℕ → ℕ) × (ℕ → ℕ))
    (p : ℕ × ℕ) : (ℕ → ℕ) × (ℕ → ℕ) :=
  let byteIndex := p.1 * byteWidth + p.2 / 8
  let bitIndex := 7 - p.2 % 8
  let bwPlane := if lumBit data width p.1 p.2 = 1
    then Function.update st.1 byteIndex (st.1 byteIndex ||| (0x01 <<< bitIndex))
    else Function.update st.1 byteIndex (st.1 byteIndex &&& (0xFF ^^^ (0x01 <<< bitIndex)))
  let rdPlane := if redBit data width p.1 p.2 = 1
    then Function.update st.2 byteIndex (st.2 byteIndex ||| (0x01 <<< bitIndex))
    else Function.update st.2 byteIndex (st.2 byteIndex &&& (0xFF ^^^ (0x01 <<< bitIndex)))
  (bwPlane, rdPlane)

/-- `processImageData(imageData, mode)`: pack a pixel buffer into the device
wire format; sizes are `w*h` (six-color), `ceil(w*h/4)` (four-color),
`ceil(w/8)*h` (two-color) and twice that (three-color, two planes
concatenated back-to-back). -/
noncomputable def processImageData (img : ImageData) (mode : DitherMode) : Bytes :=
  let width := img.width
  let height := img.height
  let data := img.data
  match mode with
  | .sixColor =>
    { size := width * height
      get := (pixelSeq width height).foldl (sixStep width height data) (fun _ => 0) }
  | .fourColor =>
    { size := (width * height + 3) / 4
      get := (pixelSeq width height).foldl (fourStep width data) (fun _ => 0) }
  | .blackWhiteColor =>
    let byteWidth := (width + 7) / 8
    { size := byteWidth * height
      get := (pixelSeq width height).foldl (bwStep width byteWidth data) (fun _ => 0) }
  | .threeColor =>
    let byteWidth := (width + 7) / 8
    let planes := (pixelSeq width height).foldl (threeStep width byteWidth data)
      ((fun _ => 0), (fun _ => 0))
    { size := height * byteWidth + height * byteWidth
      get := fun i =>
        if i < height * byteWidth then planes.1 i else planes.2 (i - height * byteWidth) }

/-! ## `decodeProcessedData` (part_000 lines 1942–2021) -/

/-- Write one decoded RGBA pixel, the four sequential `data[index+c] = …`
stores of `decodeProcessedData`. -/
def upd4 (st : ℕ → ℚ) (i : ℕ) (v0 v1 v2 v3 : ℚ) : ℕ → ℚ :=
  Function.update (Function.update (Function.update (Function.update st i v0)
    (i + 1) v1) (i + 2) v2) (i + 3) v3

/-- The local `fourColorValues` table of the four-color decode branch. -/
structure FourColorValue where
  value : ℕ
  r : ℚ
  g : ℚ
  b : ℚ
deriving DecidableEq, Repr

def fourColorValues : List FourColorValue :=
  [⟨0x00, 0, 0, 0⟩, ⟨0x01, 255, 255, 255⟩, ⟨0x03, 255, 0, 0⟩, ⟨0x02, 255, 255, 0⟩]

/-- Six-color decode loop body: read the device code back from the
column-major index, look it up in `rgbPalette` (defaulting to white,
`rgbPalette[5]`), and write the RGBA pixel. -/
def sixDecStep (pd : Bytes) (width height : ℕ) (st : ℕ → ℚ) (p : ℕ × ℕ) : ℕ → ℚ :=
  let value := pd.get (p.2 * height + (height - 1 - p.1))
  let color := (rgbPalette.find? (fun c => c.value == value)).getD rgbWhite
  upd4 st ((p.1 * width + p.2) * 4) color.r color.g color.b 255

/-- Four-color decode loop body: extract the 2-bit code and look it up in
`fourColorValues` (defaulting to white, `fourColorValues[1]`). -/
def fourDecStep (pd : Bytes) (width : ℕ) (st : ℕ → ℚ) (p : ℕ × ℕ) : ℕ → ℚ :=
  let newIndex := (p.1 * width + p.2) / 4
  let shift := 6 - p.2 % 4 * 2
  let value := (pd.get newIndex >>> shift) &&& 0x03
  let color := (fourColorValues.find? (fun c => c.value == value)).getD ⟨0x01, 255, 255, 255⟩
  upd4 st ((p.1 * width + p.2) * 4) color.r color.g color.b 255

/-- Two-color decode loop body: bit 1 is white, bit 0 is black. -/
def bwDecStep (pd : Bytes) (width byteWidth : ℕ) (st : ℕ → ℚ) (p : ℕ × ℕ) : ℕ → ℚ :=
  let byteIndex := p.1 * byteWidth + p.2 / 8
  let bitIndex := 7 - p.2 % 8
  let bit := (pd.get byteIndex >>> bitIndex) &&& 1
  upd4 st ((p.1 * width + p.2) * 4) (if bit ≠ 0 then 255 else 0)
    (if bit ≠ 0 then 255 else 0) (if bit ≠ 0 then 255 else 0) 255

/-- Three-color decode loop body: a red-plane bit 0 means red regardless of
the black/white plane, otherwise the black/white bit selects white/black. -/
def threeDecStep (bwData rdData : ℕ → ℕ) (width byteWidth : ℕ) (st : ℕ → ℚ)
    (p : ℕ × ℕ) : ℕ → ℚ :=
  let byteIndex := p.1 * byteWidth + p.2 / 8
  let bitIndex := 7 - p.2 % 8
  let blackWhiteBit := (bwData byteIndex >>> bitIndex) &&& 1
  let redWhiteBit := (rdData byteIndex >>> bitIndex) &&& 1
  if redWhiteBit = 0 then
    upd4 st ((p.1 * width + p.2) * 4) 255 0 0 255
  else
    upd4 st ((p.1 * width + p.2) * 4) (if blackWhiteBit ≠ 0 then 255 else 0)
      (if blackWhiteBit ≠ 0 then 255 else 0) (if blackWhiteBit ≠ 0 then 255 else 0) 255

/-- `decodeProcessedData(processedData, width, height, mode)`: rebuild an RGBA
image from the packed bytes, starting from the zeroed `new ImageData(w, h)`.
The three-color branch first slices the two planes apart at `byteWidth*height`. -/
def decodeProcessedData (processedData : Bytes) (width height : ℕ)
    (mode : DitherMode) : ImageData :=
  match mode with
  | .sixColor =>
    { width := width, height := height
      data := (pixelSeq width height).foldl (sixDecStep processedData width height)
        (fun _ => 0) }
  | .fourColor =>
    { width := width, height := height
      data := (pixelSeq width height).foldl (fourDecStep processedData width)
        (fun _ => 0) }
  | .blackWhiteColor =>
    let byteWidth := (width + 7) / 8
    { width := width, height := height
      data := (pixelSeq width height).foldl (bwDecStep processedData width byteWidth)
        (fun _ => 0) }
  | .threeColor =>
    let byteWidth := (width + 7) / 8
    let blackWhiteData := fun i => processedData.get i
    let redWhiteData := fun i => processedData.get (byteWidth * height + i)
    { width := width, height := height
      data := (pixelSeq width height).foldl
        (threeDecStep blackWhiteData redWhiteData width byteWidth) (fun _ => 0) }

/-! ## Facts about the pixel traversal -/

theorem pixelSeq_succ (w h : ℕ) :
    pixelSeq w (h + 1) = pixelSeq w h ++ ((List.range w).map fun x => (h, x)) := by
  unfold pixelSeq
  rw [List.range_succ, List.flatMap_append]
  simp

theorem pixelSeq_mem {w h : ℕ} {p : ℕ × ℕ} : p ∈ pixelSeq w h ↔ p.1 < h ∧ p.2 < w := by
  unfold pixelSeq
  simp only [List.mem_flatMap, List.mem_range, List.mem_map]
  constructor
  · rintro ⟨y, hy, x, hx, rfl⟩
    exact ⟨hy, hx⟩
  · intro ⟨h1, h2⟩
    exact ⟨p.1, h1, p.2, h2, rfl⟩

theorem pixelSeq_nodup (w h : ℕ) : (pixelSeq w h).Nodup := by
  induction h with
  | zero => simp [pixelSeq]
  | succ n ih =>
    rw [pixelSeq_succ]
    refine List.Nodup.append ih ((List.nodup_range w).map fun a b hab => by simpa using hab) ?_
    intro p hp hp2
    have h1 := (pixelSeq_mem.mp hp).1
    simp only [List.mem_map, List.mem_range] at hp2
    obtain ⟨x, hx, rfl⟩ := hp2
    exact absurd h1 (lt_irrefl n)

theorem pixelSeq_split {w h : ℕ} {p : ℕ × ℕ} (hp : p ∈ pixelSeq w h) :
    ∃ l1 l2, pixelSeq w h = l1 ++ p :: l2 ∧ p ∉ l1 ∧ p ∉ l2 ∧
      (∀ q ∈ l1, q ∈ pixelSeq w h) ∧ (∀ q ∈ l2, q ∈ pixelSeq w h) := by
  obtain ⟨l1, l2, h12⟩ := List.append_of_mem hp
  have hnd := pixelSeq_nodup w h
  rw [h12, List.nodup_append] at hnd
  obtain ⟨h1, h2, hdisj⟩ := hnd
  refine ⟨l1, l2, h12, ?_, (List.nodup_cons.mp h2).1, ?_, ?_⟩
  · intro hmem
    exact hdisj hmem (List.mem_cons_self p l2)
  · intro q hq
    rw [h12]
    exact List.mem_append_left _ hq
  · intro q hq
    rw [h12]
    exact List.mem_append_right _ (List.mem_cons_of_mem _ hq)

/-- Uniqueness of euclidean decomposition: used to show two distinct pixels
write to distinct byte/bit positions. -/
theorem euclid_unique {b a a' q q' : ℕ} (ha : a < b) (ha' : a' < b)
    (h : q * b + a = q' * b + a') : q = q' ∧ a = a' := by
  have hb : 0 < b := lt_of_le_of_lt (Nat.zero_le a) ha
  have h1 : (q * b + a) / b = q := by
    rw [Nat.add_comm, Nat.add_mul_div_right _ _ hb, Nat.div_eq_of_lt ha, Nat.zero_add]
  have h2 : (q' * b + a') / b = q' := by
    rw [Nat.add_comm, Nat.add_mul_div_right _ _ hb, Nat.div_eq_of_lt ha', Nat.zero_add]
  have hq : q = q' := by rw [← h1, ← h2, h]
  subst hq
  exact ⟨rfl, by omega⟩

/-- `x/8` stays below `byteWidth = (w+7)/8` for `x < w`. -/
theorem div8_lt_byteWidth {w x : ℕ} (hx : x < w) : x / 8 < (w + 7) / 8 := by
  have h1 : x / 8 ≤ (w - 1) / 8 := Nat.div_le_div_right (by omega)
  have h2 : (w - 1) / 8 < (w + 7) / 8 := by
    have h3 : w + 7 = (w - 1) + 8 := by omega
    rw [h3, Nat.add_div_right _ (by norm_num)]
    omega
  omega

/-- Two pixels that hit the same two-color byte and bit position coincide. -/
theorem bw_pos_inj {w y x y' x' : ℕ} (hx : x < w) (hx' : x' < w)
    (hbyte : y' * ((w + 7) / 8) + x' / 8 = y * ((w + 7) / 8) + x / 8)
    (hbit : 7 - x' % 8 = 7 - x % 8) : y' = y ∧ x' = x := by
  obtain ⟨hy, hdiv⟩ := euclid_unique (div8_lt_byteWidth hx') (div8_lt_byteWidth hx) hbyte
  have hm : x' % 8 = x % 8 := by omega
  refine ⟨hy, ?_⟩
  have e1 := Nat.div_add_mod x' 8
  have e2 := Nat.div_add_mod x 8
  omega

/-- With `4 ∣ w`, two pixels that hit the same four-color byte with the same
2-bit shift coincide. -/
theorem four_pos_inj {w y x y' x' : ℕ} (hw : w % 4 = 0) (hx : x < w) (hx' : x' < w)
    (hbyte : (y' * w + x') / 4 = (y * w + x) / 4)
    (hsh : 6 - x' % 4 * 2 = 6 - x % 4 * 2) : y' = y ∧ x' = x := by
  have hm4 : x' % 4 = x % 4 := by omega
  have hl : ∀ (u v : ℕ), (u * w + v) % 4 = v % 4 := by
    intro u v
    have hw4 : w = 4 * (w / 4) := by omega
    conv_lhs => rw [hw4, show u * (4 * (w / 4)) + v = v + u * (w / 4) * 4 by ring]
    exact Nat.add_mul_mod_self_right v (u * (w / 4)) 4
  have hmod : (y' * w + x') % 4 = (y * w + x) % 4 := by
    rw [hl y' x', hl y x, hm4]
  have hlin : y' * w + x' = y * w + x := by
    have d1 := Nat.div_add_mod (y' * w + x') 4
    have d2 := Nat.div_add_mod (y * w + x) 4
    omega
  exact euclid_unique hx' hx hlin

/-- Two pixels that hit the same six-color byte index coincide. -/
theorem six_pos_inj {h y x y' x' : ℕ} (hy : y < h) (hy' : y' < h)
    (hidx : x' * h + (h - 1 - y') = x * h + (h - 1 - y)) : y' = y ∧ x' = x := by
  obtain ⟨hxe, hye⟩ := euclid_unique (by omega : h - 1 - y' < h) (by omega : h - 1 - y < h) hidx
  exact ⟨by omega, hxe⟩

/-! ## Single-bit arithmetic -/

theorem small_shift_testBit {v s b : ℕ} (hv : v < 2) (hb : b ≠ s) :
    (v <<< s).testBit b = false := by
  rw [Nat.testBit_shiftLeft]
  by_cases hbs : s ≤ b
  · have h1 : 1 ≤ b - s := by omega
    have h2 : v < 2 ^ (b - s) := lt_of_lt_of_le hv
      (le_trans (le_of_eq (Nat.pow_one 2).symm) (Nat.pow_le_pow_right (by norm_num) h1))
    simp [hbs, Nat.testBit_lt_two_pow h2]
  · simp [hbs]

theorem small4_shift_testBit {v s b : ℕ} (hv : v < 4) (hb : b ≠ s) (hb1 : b ≠ s + 1) :
    (v <<< s).testBit b = false := by
  rw [Nat.testBit_shiftLeft]
  by_cases hbs : s ≤ b
  · have h1 : 2 ≤ b - s := by omega
    have h2 : v < 2 ^ (b - s) := lt_of_lt_of_le hv
      (le_trans (le_of_eq (by norm_num : (2:ℕ) ^ 2 = 4).symm) (Nat.pow_le_pow_right (by norm_num) h1))
    simp [hbs, Nat.testBit_lt_two_pow h2]
  · simp [hbs]

theorem shift_testBit_self {v s t : ℕ} : (v <<< s).testBit (s + t) = v.testBit t := by
  rw [Nat.testBit_shiftLeft]
  simp [Nat.le_add_right]

theorem extract_bit (n s : ℕ) : (n >>> s) &&& 1 = if n.testBit s then 1 else 0 := by
  rw [Nat.and_one_is_mod]
  have hb : (n >>> s).testBit 0 = n.testBit s := by
    rw [Nat.testBit_shiftRight, Nat.add_zero]
  rw [← hb, Nat.testBit_zero]
  rcases Nat.mod_two_eq_zero_or_one (n >>> s) with h | h <;> simp [h]

theorem extract_two_bits (n s : ℕ) : (n >>> s) &&& 3 =
    (if n.testBit s then 1 else 0) + 2 * (if n.testBit (s + 1) then 1 else 0) := by
  have h4 : (n >>> s) &&& 3 = (n >>> s) % 4 := by
    have := Nat.and_pow_two_sub_one_eq_mod (n >>> s) 2
    norm_num at this
    exact this
  have hb0 : (n >>> s).testBit 0 = n.testBit s := by
    rw [Nat.testBit_shiftRight, Nat.add_zero]
  have hb1 : (n >>> s).testBit 1 = n.testBit (s + 1) := by
    rw [Nat.testBit_shiftRight]
  rw [h4, ← hb0, ← hb1, Nat.testBit_zero,
    show (1:ℕ) = 0 + 1 from rfl, Nat.testBit_add_one, Nat.testBit_zero]
  have e1 := Nat.div_add_mod (n >>> s) 2
  have e2 := Nat.div_add_mod ((n >>> s) / 2) 2
  rcases Nat.mod_two_eq_zero_or_one (n >>> s) with h | h <;>
    rcases Nat.mod_two_eq_zero_or_one ((n >>> s) / 2) with h' | h' <;>
    simp [h, h'] <;> omega

theorem two_bits_eq {v : ℕ} (hv : v < 4) :
    (if v.testBit 0 then 1 else 0) + 2 * (if v.testBit 1 then 1 else 0) = v := by
  interval_cases v <;> decide

/-! ## `findClosestColor` always returns a member of the searched palette -/

theorem selectPalette_cons (mode : DitherMode) :
    ∃ c rest, selectPalette mode = c :: rest := by
  cases mode <;> exact ⟨_, _, rfl⟩

theorem findClosestColor_mem (r g b : ℚ) (mode : DitherMode) :
    findClosestColor r g b mode ∈ selectPalette mode := by
  unfold findClosestColor
  split
  · rename_i hcond
    obtain ⟨h1, h2, _⟩ := hcond
    unfold selectPalette
    rw [if_neg h1, if_neg h2]
    exact List.mem_cons_of_mem _ (List.mem_cons_of_mem _ (List.mem_cons_self _ _))
  · split
    · rename_i hcond hmode
      subst hmode
      rw [show selectPalette .threeColor = threeColorPalette from rfl]
      split
      · exact List.mem_cons_of_mem _ (List.mem_cons_of_mem _ (List.mem_cons_self _ _))
      · split
        · exact List.mem_cons_self _ _
        · exact List.mem_cons_of_mem _ (List.mem_cons_self _ _)
    · obtain ⟨c, rest, hpal⟩ := selectPalette_cons mode
      rw [hpal, labSearch_eq_minStep_fold]
      rcases minStep_fold_mem (entryDistance r g b) (c :: rest)
        ((⊤ : WithTop ℝ), (c :: rest).headI) with h | h
      · rw [h]
        exact List.mem_cons_self c rest
      · exact h

theorem closest_four_value_lt (r g b : ℚ) :
    (findClosestColor r g b .fourColor).value < 4 := by
  have h := findClosestColor_mem r g b .fourColor
  rw [show selectPalette .fourColor = fourColorPalette from rfl] at h
  have hall : ∀ e ∈ fourColorPalette, e.value < 4 := by decide
  exact hall _ h

/-! ## Single-step effects of the pack loop bodies -/

theorem lumBit_lt_two (data : ℕ → ℚ) (width y x : ℕ) : lumBit data width y x < 2 := by
  unfold lumBit
  split <;> norm_num

theorem bwStep_preserve (width byteWidth : ℕ) (data : ℕ → ℚ) (st : ℕ → ℕ)
    (p : ℕ × ℕ) (j b : ℕ)
    (h : ¬(p.1 * byteWidth + p.2 / 8 = j ∧ 7 - p.2 % 8 = b)) :
    (bwStep width byteWidth data st p j).testBit b = (st j).testBit b := by
  unfold bwStep
  by_cases hj : p.1 * byteWidth + p.2 / 8 = j
  · push_neg at h
    have hbne : 7 - p.2 % 8 ≠ b := h hj
    rw [hj, Function.update_same, Nat.testBit_or,
      small_shift_testBit (lumBit_lt_two data width p.1 p.2) (Ne.symm hbne), Bool.or_false]
  · rw [Function.update_noteq (fun he => hj he.symm)]

theorem bwStep_self (width byteWidth : ℕ) (data : ℕ → ℚ) (st : ℕ → ℕ) (p : ℕ × ℕ)
    (hst : (st (p.1 * byteWidth + p.2 / 8)).testBit (7 - p.2 % 8) = false) :
    (bwStep width byteWidth data st p (p.1 * byteWidth + p.2 / 8)).testBit (7 - p.2 % 8)
      = decide (lumBit data width p.1 p.2 = 1) := by
  unfold bwStep
  have hsh := shift_testBit_self (v := lumBit data width p.1 p.2) (s := 7 - p.2 % 8) (t := 0)
  rw [Nat.add_zero] at hsh
  rw [Function.update_same, Nat.testBit_or, hst, Bool.false_or, hsh]
  unfold lumBit
  split <;> simp

theorem fourStep_preserve (width : ℕ) (data : ℕ → ℚ) (st : ℕ → ℕ) (p : ℕ × ℕ) (j b : ℕ)
    (h : ¬((p.1 * width + p.2) / 4 = j ∧
      (b = 6 - p.2 % 4 * 2 ∨ b = 6 - p.2 % 4 * 2 + 1))) :
    (fourStep width data st p j).testBit b = (st j).testBit b := by
  unfold fourStep
  by_cases hj : (p.1 * width + p.2) / 4 = j
  · push_neg at h
    obtain ⟨hb1, hb2⟩ := h hj
    rw [hj, Function.update_same, Nat.testBit_or,
      small4_shift_testBit (closest_four_value_lt _ _ _) hb1 hb2, Bool.or_false]
  · rw [Function.update_noteq (fun he => hj he.symm)]

theorem fourStep_self (width : ℕ) (data : ℕ → ℚ) (st : ℕ → ℕ) (p : ℕ × ℕ) (t : ℕ)
    (hst : (st ((p.1 * width + p.2) / 4)).testBit (6 - p.2 % 4 * 2 + t) = false) :
    (fourStep width data st p ((p.1 * width + p.2) / 4)).testBit (6 - p.2 % 4 * 2 + t)
      = (findClosestColor (data ((p.1 * width + p.2) * 4)) (data ((p.1 * width + p.2) * 4 + 1))
          (data ((p.1 * width + p.2) * 4 + 2)) .fourColor).value.testBit t := by
  unfold fourStep
  rw [Function.update_same, Nat.testBit_or, hst, Bool.false_or, shift_testBit_self]

theorem sixStep_self (width height : ℕ) (data : ℕ → ℚ) (st : ℕ → ℕ) (p : ℕ × ℕ) :
    sixStep width height data st p (p.2 * height + (height - 1 - p.1)) =
      (findClosestColor (data ((p.1 * width + p.2) * 4)) (data ((p.1 * width + p.2) * 4 + 1))
        (data ((p.1 * width + p.2) * 4 + 2)) .sixColor).value := by
  unfold sixStep
  exact Function.update_same _ _ _

theorem sixStep_preserve (width height : ℕ) (data : ℕ → ℚ) (st : ℕ → ℕ) (p : ℕ × ℕ) (j : ℕ)
    (h : p.2 * height + (height - 1 - p.1) ≠ j) :
    sixStep width height data st p j = st j := by
  unfold sixStep
  exact Function.update_noteq (fun he => h he.symm) _ _

theorem redBit_le_one (data : ℕ → ℚ) (width y x : ℕ) : redBit data width y x < 2 := by
  unfold redBit
  split <;> norm_num

theorem mask_testBit_ne {s b : ℕ} (hb8 : b < 8) (hne : b ≠ s) :
    (0xFF ^^^ (1 <<< s)).testBit b = true := by
  rw [Nat.testBit_xor, small_shift_testBit (by norm_num) hne,
    show (0xFF : ℕ) = 2 ^ 8 - 1 by norm_num, Nat.testBit_two_pow_sub_one]
  simp [hb8]

theorem mask_testBit_self {s : ℕ} (hs8 : s < 8) :
    (0xFF ^^^ (1 <<< s)).testBit s = false := by
  have hsh := shift_testBit_self (v := 1) (s := s) (t := 0)
  rw [Nat.add_zero] at hsh
  rw [Nat.testBit_xor, hsh, show (0xFF : ℕ) = 2 ^ 8 - 1 by norm_num,
    Nat.testBit_two_pow_sub_one]
  simp [hs8]

theorem threeStep_bw_preserve (width byteWidth : ℕ) (data : ℕ → ℚ)
    (st : (ℕ → ℕ) × (ℕ → ℕ)) (p : ℕ × ℕ) (j b : ℕ) (hb8 : b < 8)
    (h : ¬(p.1 * byteWidth + p.2 / 8 = j ∧ 7 - p.2 % 8 = b)) :
    ((threeStep width byteWidth data st p).1 j).testBit b = (st.1 j).testBit b := by
  unfold threeStep
  dsimp only
  by_cases hj : p.1 * byteWidth + p.2 / 8 = j
  · push_neg at h
    have hbne : 7 - p.2 % 8 ≠ b := h hj
    split
    · rw [hj, Function.update_same, Nat.testBit_or,
        small_shift_testBit (by norm_num) (Ne.symm hbne), Bool.or_false]
    · rw [hj, Function.update_same, Nat.testBit_and, mask_testBit_ne hb8 (Ne.symm hbne),
        Bool.and_true]
  · split <;> rw [Function.update_noteq (fun he => hj he.symm)]

theorem threeStep_bw_self (width byteWidth : ℕ) (data : ℕ → ℚ)
    (st : (ℕ → ℕ) × (ℕ → ℕ)) (p : ℕ × ℕ) :
    ((threeStep width byteWidth data st p).1 (p.1 * byteWidth + p.2 / 8)).testBit (7 - p.2 % 8)
      = decide (lumBit data width p.1 p.2 = 1) := by
  unfold threeStep
  dsimp only
  have hsh := shift_testBit_self (v := 1) (s := 7 - p.2 % 8) (t := 0)
  rw [Nat.add_zero] at hsh
  split
  · rename_i hl
    rw [Function.update_same, Nat.testBit_or, hsh]
    simp [hl]
  · rename_i hl
    rw [Function.update_same, Nat.testBit_and, mask_testBit_self (by omega), Bool.and_false]
    simp [hl]

theorem threeStep_rd_preserve (width byteWidth : ℕ) (data : ℕ → ℚ)
    (st : (ℕ → ℕ) × (ℕ → ℕ)) (p : ℕ × ℕ) (j b : ℕ) (hb8 : b < 8)
    (h : ¬(p.1 * byteWidth + p.2 / 8 = j ∧ 7 - p.2 % 8 = b)) :
    ((threeStep width byteWidth data st p).2 j).testBit b = (st.2 j).testBit b := by
  unfold threeStep
  dsimp only
  by_cases hj : p.1 * byteWidth + p.2 / 8 = j
  · push_neg at h
    have hbne : 7 - p.2 % 8 ≠ b := h hj
    split
    · rw [hj, Function.update_same, Nat.testBit_or,
        small_shift_testBit (by norm_num) (Ne.symm hbne), Bool.or_false]
    · rw [hj, Function.update_same, Nat.testBit_and, mask_testBit_ne hb8 (Ne.symm hbne),
        Bool.and_true]
  · split <;> rw [Function.update_noteq (fun he => hj he.symm)]

theorem threeStep_rd_self (width byteWidth : ℕ) (data : ℕ → ℚ)
    (st : (ℕ → ℕ) × (ℕ → ℕ)) (p : ℕ × ℕ) :
    ((threeStep width byteWidth data st p).2 (p.1 * byteWidth + p.2 / 8)).testBit (7 - p.2 % 8)
      = decide (redBit data width p.1 p.2 = 1) := by
  unfold threeStep
  dsimp only
  have hsh := shift_testBit_self (v := 1) (s := 7 - p.2 % 8) (t := 0)
  rw [Nat.add_zero] at hsh
  split
  · rename_i hl
    rw [Function.update_same, Nat.testBit_or, hsh]
    simp [hl]
  · rename_i hl
    rw [Function.update_same, Nat.testBit_and, mask_testBit_self (by omega), Bool.and_false]
    simp [hl]

/-! ## Fold-level preservation for the pack loops -/

theorem bw_fold_preserve (width byteWidth : ℕ) (data : ℕ → ℚ) (l : List (ℕ × ℕ))
    (st : ℕ → ℕ) (j b : ℕ)
    (h : ∀ q ∈ l, ¬(q.1 * byteWidth + q.2 / 8 = j ∧ 7 - q.2 % 8 = b)) :
    ((l.foldl (bwStep width byteWidth data) st) j).testBit b = (st j).testBit b := by
  induction l generalizing st with
  | nil => rfl
  | cons q t ih =>
    rw [List.foldl_cons, ih _ (fun r hr => h r (List.mem_cons_of_mem q hr)),
      bwStep_preserve _ _ _ _ _ _ _ (h q (List.mem_cons_self q t))]

theorem four_fold_preserve (width : ℕ) (data : ℕ → ℚ) (l : List (ℕ × ℕ))
    (st : ℕ → ℕ) (j b : ℕ)
    (h : ∀ q ∈ l, ¬((q.1 * width + q.2) / 4 = j ∧
      (b = 6 - q.2 % 4 * 2 ∨ b = 6 - q.2 % 4 * 2 + 1))) :
    ((l.foldl (fourStep width data) st) j).testBit b = (st j).testBit b := by
  induction l generalizing st with
  | nil => rfl
  | cons q t ih =>
    rw [List.foldl_cons, ih _ (fun r hr => h r (List.mem_cons_of_mem q hr)),
      fourStep_preserve _ _ _ _ _ _ (h q (List.mem_cons_self q t))]

theorem six_fold_preserve (width height : ℕ) (data : ℕ → ℚ) (l : List (ℕ × ℕ))
    (st : ℕ → ℕ) (j : ℕ)
    (h : ∀ q ∈ l, q.2 * height + (height - 1 - q.1) ≠ j) :
    (l.foldl (sixStep width height data) st) j = st j := by
  induction l generalizing st with
  | nil => rfl
  | cons q t ih =>
    rw [List.foldl_cons, ih _ (fun r hr => h r (List.mem_cons_of_mem q hr)),
      sixStep_preserve _ _ _ _ _ _ (h q (List.mem_cons_self q t))]

theorem three_fold_bw_preserve (width byteWidth : ℕ) (data : ℕ → ℚ) (l : List (ℕ × ℕ))
    (st : (ℕ → ℕ) × (ℕ → ℕ)) (j b : ℕ) (hb8 : b < 8)
    (h : ∀ q ∈ l, ¬(q.1 * byteWidth + q.2 / 8 = j ∧ 7 - q.2 % 8 = b)) :
    ((l.foldl (threeStep width byteWidth data) st).1 j).testBit b = (st.1 j).testBit b := by
  induction l generalizing st with
  | nil => rfl
  | cons q t ih =>
    rw [List.foldl_cons, ih _ (fun r hr => h r (List.mem_cons_of_mem q hr)),
      threeStep_bw_preserve _ _ _ _ _ _ _ hb8 (h q (List.mem_cons_self q t))]

theorem three_fold_rd_preserve (width byteWidth : ℕ) (data : ℕ → ℚ) (l : List (ℕ × ℕ))
    (st : (ℕ → ℕ) × (ℕ → ℕ)) (j b : ℕ) (hb8 : b < 8)
    (h : ∀ q ∈ l, ¬(q.1 * byteWidth + q.2 / 8 = j ∧ 7 - q.2 % 8 = b)) :
    ((l.foldl (threeStep width byteWidth data) st).2 j).testBit b = (st.2 j).testBit b := by
  induction l generalizing st with
  | nil => rfl
  | cons q t ih =>
    rw [List.foldl_cons, ih _ (fun r hr => h r (List.mem_cons_of_mem q hr)),
      threeStep_rd_preserve _ _ _ _ _ _ _ hb8 (h q (List.mem_cons_self q t))]

/-! ## Branch equations of `processImageData` -/

theorem processImageData_bw_get (img : ImageData) :
    (processImageData img .blackWhiteColor).get =
      (pixelSeq img.width img.height).foldl
        (bwStep img.width ((img.width + 7) / 8) img.data) (fun _ => 0) := rfl

theorem processImageData_four_get (img : ImageData) :
    (processImageData img .fourColor).get =
      (pixelSeq img.width img.height).foldl (fourStep img.width img.data) (fun _ => 0) := rfl

theorem processImageData_six_get (img : ImageData) :
    (processImageData img .sixColor).get =
      (pixelSeq img.width img.height).foldl
        (sixStep img.width img.height img.data) (fun _ => 0) := rfl

theorem processImageData_three_get (img : ImageData) :
    (processImageData img .threeColor).get = fun i =>
      if i < img.height * ((img.width + 7) / 8) then
        ((pixelSeq img.width img.height).foldl
          (threeStep img.width ((img.width + 7) / 8) img.data)
          ((fun _ => 0), (fun _ => 0))).1 i
      else
        ((pixelSeq img.width img.height).foldl
          (threeStep img.width ((img.width + 7) / 8) img.data)
          ((fun _ => 0), (fun _ => 0))).2 (i - img.height * ((img.width + 7) / 8)) := rfl

/-! ## The bit each pixel contributes to the packed output -/

theorem pack_bw_bit (img : ImageData) (p : ℕ × ℕ)
    (hp1 : p.1 < img.height) (hp2 : p.2 < img.width) :
    ((processImageData img .blackWhiteColor).get
        (p.1 * ((img.width + 7) / 8) + p.2 / 8)).testBit (7 - p.2 % 8)
      = decide (lumBit img.data img.width p.1 p.2 = 1) := by
  rw [processImageData_bw_get]
  obtain ⟨l1, l2, hsplit, hnl1, hnl2, hml1, hml2⟩ :=
    pixelSeq_split (pixelSeq_mem.mpr ⟨hp1, hp2⟩)
  have hneq : ∀ q ∈ pixelSeq img.width img.height, q ≠ p →
      ¬(q.1 * ((img.width + 7) / 8) + q.2 / 8 = p.1 * ((img.width + 7) / 8) + p.2 / 8 ∧
        7 - q.2 % 8 = 7 - p.2 % 8) := by
    rintro q hq hqp ⟨hb, hbit⟩
    obtain ⟨h1, h2⟩ := pixelSeq_mem.mp hq
    obtain ⟨hy', hx'⟩ := bw_pos_inj hp2 h2 hb hbit
    exact hqp (Prod.ext hy' hx')
  rw [hsplit, List.foldl_append, List.foldl_cons,
    bw_fold_preserve _ _ _ l2 _ _ _
      (fun q hq => hneq q (hml2 q hq) (fun he => hnl2 (he ▸ hq))),
    bwStep_self _ _ _ _ _ ?hst]
  case hst =>
    rw [bw_fold_preserve _ _ _ l1 _ _ _
      (fun q hq => hneq q (hml1 q hq) (fun he => hnl1 (he ▸ hq)))]
    simp

theorem pack_four_bit (img : ImageData) (hw : img.width % 4 = 0) (p : ℕ × ℕ)
    (hp1 : p.1 < img.height) (hp2 : p.2 < img.width) (t : ℕ) (ht : t < 2) :
    ((processImageData img .fourColor).get ((p.1 * img.width + p.2) / 4)).testBit
        (6 - p.2 % 4 * 2 + t)
      = (findClosestColor (img.data ((p.1 * img.width + p.2) * 4))
          (img.data ((p.1 * img.width + p.2) * 4 + 1))
          (img.data ((p.1 * img.width + p.2) * 4 + 2)) .fourColor).value.testBit t := by
  rw [processImageData_four_get]
  obtain ⟨l1, l2, hsplit, hnl1, hnl2, hml1, hml2⟩ :=
    pixelSeq_split (pixelSeq_mem.mpr ⟨hp1, hp2⟩)
  have hneq : ∀ q ∈ pixelSeq img.width img.height, q ≠ p →
      ¬((q.1 * img.width + q.2) / 4 = (p.1 * img.width + p.2) / 4 ∧
        (6 - p.2 % 4 * 2 + t = 6 - q.2 % 4 * 2 ∨
         6 - p.2 % 4 * 2 + t = 6 - q.2 % 4 * 2 + 1)) := by
    rintro q hq hqp ⟨hb, hbit⟩
    obtain ⟨h1, h2⟩ := pixelSeq_mem.mp hq
    have hmq : q.2 % 4 < 4 := Nat.mod_lt _ (by norm_num)
    have hmp : p.2 % 4 < 4 := Nat.mod_lt _ (by norm_num)
    have hsh : 6 - q.2 % 4 * 2 = 6 - p.2 % 4 * 2 := by omega
    obtain ⟨hy', hx'⟩ := four_pos_inj hw hp2 h2 hb hsh
    exact hqp (Prod.ext hy' hx')
  rw [hsplit, List.foldl_append, List.foldl_cons,
    four_fold_preserve _ _ l2 _ _ _
      (fun q hq => hneq q (hml2 q hq) (fun he => hnl2 (he ▸ hq))),
    fourStep_self _ _ _ _ _ ?hst]
  case hst =>
    rw [four_fold_preserve _ _ l1 _ _ _
      (fun q hq => hneq q (hml1 q hq) (fun he => hnl1 (he ▸ hq)))]
    simp

theorem pack_six_value (img : ImageData) (p : ℕ × ℕ)
    (hp1 : p.1 < img.height) (hp2 : p.2 < img.width) :
    (processImageData img .sixColor).get (p.2 * img.height + (img.height - 1 - p.1))
      = (findClosestColor (img.data ((p.1 * img.width + p.2) * 4))
          (img.data ((p.1 * img.width + p.2) * 4 + 1))
          (img.data ((p.1 * img.width + p.2) * 4 + 2)) .sixColor).value := by
  rw [processImageData_six_get]
  obtain ⟨l1, l2, hsplit, hnl1, hnl2, hml1, hml2⟩ :=
    pixelSeq_split (pixelSeq_mem.mpr ⟨hp1, hp2⟩)
  have hneq : ∀ q ∈ pixelSeq img.width img.height, q ≠ p →
      q.2 * img.height + (img.height - 1 - q.1) ≠
        p.2 * img.height + (img.height - 1 - p.1) := by
    intro q hq hqp hidx
    obtain ⟨h1, h2⟩ := pixelSeq_mem.mp hq
    obtain ⟨hy', hx'⟩ := six_pos_inj hp1 h1 hidx
    exact hqp (Prod.ext hy' hx')
  rw [hsplit, List.foldl_append, List.foldl_cons,
    six_fold_preserve _ _ _ l2 _ _
      (fun q hq => hneq q (hml2 q hq) (fun he => hnl2 (he ▸ hq))),
    sixStep_self]

/-- The black/white plane bit of the three-color pack. -/
theorem pack_three_bw_bit (img : ImageData) (p : ℕ × ℕ)
    (hp1 : p.1 < img.height) (hp2 : p.2 < img.width) :
    ((processImageData img .threeColor).get
        (p.1 * ((img.width + 7) / 8) + p.2 / 8)).testBit (7 - p.2 % 8)
      = decide (lumBit img.data img.width p.1 p.2 = 1) := by
  have hin : p.1 * ((img.width + 7) / 8) + p.2 / 8 <
      img.height * ((img.width + 7) / 8) := by
    have h8 := div8_lt_byteWidth hp2
    have : p.1 * ((img.width + 7) / 8) + ((img.width + 7) / 8) ≤
        img.height * ((img.width + 7) / 8) := by
      rw [← Nat.succ_mul]
      exact Nat.mul_le_mul_right _ hp1
    omega
  rw [processImageData_three_get]
  simp only [hin, if_pos]
  obtain ⟨l1, l2, hsplit, hnl1, hnl2, hml1, hml2⟩ :=
    pixelSeq_split (pixelSeq_mem.mpr ⟨hp1, hp2⟩)
  have hneq : ∀ q ∈ pixelSeq img.width img.height, q ≠ p →
      ¬(q.1 * ((img.width + 7) / 8) + q.2 / 8 = p.1 * ((img.width + 7) / 8) + p.2 / 8 ∧
        7 - q.2 % 8 = 7 - p.2 % 8) := by
    rintro q hq hqp ⟨hb, hbit⟩
    obtain ⟨h1, h2⟩ := pixelSeq_mem.mp hq
    obtain ⟨hy', hx'⟩ := bw_pos_inj hp2 h2 hb hbit
    exact hqp (Prod.ext hy' hx')
  rw [hsplit, List.foldl_append, List.foldl_cons,
    three_fold_bw_preserve _ _ _ l2 _ _ _ (by omega)
      (fun q hq => hneq q (hml2 q hq) (fun he => hnl2 (he ▸ hq))),
    threeStep_bw_self]

/-- The red/white plane bit of the three-color pack (stored after the
black/white plane). -/
theorem pack_three_rd_bit (img : ImageData) (p : ℕ × ℕ)
    (hp1 : p.1 < img.height) (hp2 : p.2 < img.width) :
    ((processImageData img .threeColor).get
        (img.height * ((img.width + 7) / 8)
          + (p.1 * ((img.width + 7) / 8) + p.2 / 8))).testBit (7 - p.2 % 8)
      = decide (redBit img.data img.width p.1 p.2 = 1) := by
  rw [processImageData_three_get]
  simp only [Nat.not_lt.mpr (Nat.le_add_right _ _), if_false, Nat.add_sub_cancel_left]
  obtain ⟨l1, l2, hsplit, hnl1, hnl2, hml1, hml2⟩ :=
    pixelSeq_split (pixelSeq_mem.mpr ⟨hp1, hp2⟩)
  have hneq : ∀ q ∈ pixelSeq img.width img.height, q ≠ p →
      ¬(q.1 * ((img.width + 7) / 8) + q.2 / 8 = p.1 * ((img.width + 7) / 8) + p.2 / 8 ∧
        7 - q.2 % 8 = 7 - p.2 % 8) := by
    rintro q hq hqp ⟨hb, hbit⟩
    obtain ⟨h1, h2⟩ := pixelSeq_mem.mp hq
    obtain ⟨hy', hx'⟩ := bw_pos_inj hp2 h2 hb hbit
    exact hqp (Prod.ext hy' hx')
  rw [hsplit, List.foldl_append, List.foldl_cons,
    three_fold_rd_preserve _ _ _ l2 _ _ _ (by omega)
      (fun q hq => hneq q (hml2 q hq) (fun he => hnl2 (he ▸ hq))),
    threeStep_rd_self]

/-! ## Evaluating `upd4` and the decode folds -/

theorem upd4_at0 (st : ℕ → ℚ) (i : ℕ) (v0 v1 v2 v3 : ℚ) :
    upd4 st i v0 v1 v2 v3 i = v0 := by
  unfold upd4
  rw [Function.update_noteq (by omega), Function.update_noteq (by omega),
    Function.update_noteq (by omega), Function.update_same]

theorem upd4_at1 (st : ℕ → ℚ) (i : ℕ) (v0 v1 v2 v3 : ℚ) :
    upd4 st i v0 v1 v2 v3 (i + 1) = v1 := by
  unfold upd4
  rw [Function.update_noteq (by omega), Function.update_noteq (by omega),
    Function.update_same]

theorem upd4_at2 (st : ℕ → ℚ) (i : ℕ) (v0 v1 v2 v3 : ℚ) :
    upd4 st i v0 v1 v2 v3 (i + 2) = v2 := by
  unfold upd4
  rw [Function.update_noteq (by omega), Function.update_same]

theorem upd4_at3 (st : ℕ → ℚ) (i : ℕ) (v0 v1 v2 v3 : ℚ) :
    upd4 st i v0 v1 v2 v3 (i + 3) = v3 := by
  unfold upd4
  rw [Function.update_same]

theorem upd4_preserve (st : ℕ → ℚ) (i : ℕ) (v0 v1 v2 v3 : ℚ) (j : ℕ)
    (h : ¬(i ≤ j ∧ j < i + 4)) :
    upd4 st i v0 v1 v2 v3 j = st j := by
  unfold upd4
  rw [Function.update_noteq (by omega), Function.update_noteq (by omega),
    Function.update_noteq (by omega), Function.update_noteq (by omega)]

/-- Every decode loop body writes exactly the four RGBA bytes of its pixel. -/
theorem sixDecStep_preserve (pd : Bytes) (width height : ℕ) (st : ℕ → ℚ) (p : ℕ × ℕ)
    (j : ℕ) (h : ¬((p.1 * width + p.2) * 4 ≤ j ∧ j < (p.1 * width + p.2) * 4 + 4)) :
    sixDecStep pd width height st p j = st j := by
  unfold sixDecStep
  exact upd4_preserve _ _ _ _ _ _ _ h

theorem fourDecStep_preserve (pd : Bytes) (width : ℕ) (st : ℕ → ℚ) (p : ℕ × ℕ)
    (j : ℕ) (h : ¬((p.1 * width + p.2) * 4 ≤ j ∧ j < (p.1 * width + p.2) * 4 + 4)) :
    fourDecStep pd width st p j = st j := by
  unfold fourDecStep
  exact upd4_preserve _ _ _ _ _ _ _ h

theorem bwDecStep_preserve (pd : Bytes) (width byteWidth : ℕ) (st : ℕ → ℚ) (p : ℕ × ℕ)
    (j : ℕ) (h : ¬((p.1 * width + p.2) * 4 ≤ j ∧ j < (p.1 * width + p.2) * 4 + 4)) :
    bwDecStep pd width byteWidth st p j = st j := by
  unfold bwDecStep
  exact upd4_preserve _ _ _ _ _ _ _ h

theorem threeDecStep_preserve (bwData rdData : ℕ → ℕ) (width byteWidth : ℕ)
    (st : ℕ → ℚ) (p : ℕ × ℕ) (j : ℕ)
    (h : ¬((p.1 * width + p.2) * 4 ≤ j ∧ j < (p.1 * width + p.2) * 4 + 4)) :
    threeDecStep bwData rdData width byteWidth st p j = st j := by
  unfold threeDecStep
  split <;> exact upd4_preserve _ _ _ _ _ _ _ h

theorem sixDec_fold_preserve (pd : Bytes) (width height : ℕ) (l : List (ℕ × ℕ))
    (st : ℕ → ℚ) (j : ℕ)
    (h : ∀ q ∈ l, ¬((q.1 * width + q.2) * 4 ≤ j ∧ j < (q.1 * width + q.2) * 4 + 4)) :
    (l.foldl (sixDecStep pd width height) st) j = st j := by
  induction l generalizing st with
  | nil => rfl
  | cons q t ih =>
    rw [List.foldl_cons, ih _ (fun r hr => h r (List.mem_cons_of_mem q hr)),
      sixDecStep_preserve _ _ _ _ _ _ (h q (List.mem_cons_self q t))]

theorem fourDec_fold_preserve (pd : Bytes) (width : ℕ) (l : List (ℕ × ℕ))
    (st : ℕ → ℚ) (j : ℕ)
    (h : ∀ q ∈ l, ¬((q.1 * width + q.2) * 4 ≤ j ∧ j < (q.1 * width + q.2) * 4 + 4)) :
    (l.foldl (fourDecStep pd width) st) j = st j := by
  induction l generalizing st with
  | nil => rfl
  | cons q t ih =>
    rw [List.foldl_cons, ih _ (fun r hr => h r (List.mem_cons_of_mem q hr)),
      fourDecStep_preserve _ _ _ _ _ (h q (List.mem_cons_self q t))]

theorem bwDec_fold_preserve (pd : Bytes) (width byteWidth : ℕ) (l : List (ℕ × ℕ))
    (st : ℕ → ℚ) (j : ℕ)
    (h : ∀ q ∈ l, ¬((q.1 * width + q.2) * 4 ≤ j ∧ j < (q.1 * width + q.2) * 4 + 4)) :
    (l.foldl (bwDecStep pd width byteWidth) st) j = st j := by
  induction l generalizing st with
  | nil => rfl
  | cons q t ih =>
    rw [List.foldl_cons, ih _ (fun r hr => h r (List.mem_cons_of_mem q hr)),
      bwDecStep_preserve _ _ _ _ _ _ (h q (List.mem_cons_self q t))]

theorem threeDec_fold_preserve (bwData rdData : ℕ → ℕ) (width byteWidth : ℕ)
    (l : List (ℕ × ℕ)) (st : ℕ → ℚ) (j : ℕ)
    (h : ∀ q ∈ l, ¬((q.1 * width + q.2) * 4 ≤ j ∧ j < (q.1 * width + q.2) * 4 + 4)) :
    (l.foldl (threeDecStep bwData rdData width byteWidth) st) j = st j := by
  induction l generalizing st with
  | nil => rfl
  | cons q t ih =>
    rw [List.foldl_cons, ih _ (fun r hr => h r (List.mem_cons_of_mem q hr)),
      threeDecStep_preserve _ _ _ _ _ _ _ (h q (List.mem_cons_self q t))]

/-! ## Branch equations of `decodeProcessedData` -/

theorem decode_six_data (pd : Bytes) (width height : ℕ) :
    (decodeProcessedData pd width height .sixColor).data =
      (pixelSeq width height).foldl (sixDecStep pd width height) (fun _ => 0) := rfl

theorem decode_four_data (pd : Bytes) (width height : ℕ) :
    (decodeProcessedData pd width height .fourColor).data =
      (pixelSeq width height).foldl (fourDecStep pd width) (fun _ => 0) := rfl

theorem decode_bw_data (pd : Bytes) (width height : ℕ) :
    (decodeProcessedData pd width height .blackWhiteColor).data =
      (pixelSeq width height).foldl (bwDecStep pd width ((width + 7) / 8)) (fun _ => 0) := rfl

theorem decode_three_data (pd : Bytes) (width height : ℕ) :
    (decodeProcessedData pd width height .threeColor).data =
      (pixelSeq width height).foldl
        (threeDecStep (fun i => pd.get i) (fun i => pd.get (((width + 7) / 8) * height + i))
          width ((width + 7) / 8)) (fun _ => 0) := rfl

theorem decode_width (pd : Bytes) (width height : ℕ) (mode : DitherMode) :
    (decodeProcessedData pd width height mode).width = width := by
  cases mode <;> rfl

theorem decode_height (pd : Bytes) (width height : ℕ) (mode : DitherMode) :
    (decodeProcessedData pd width height mode).height = height := by
  cases mode <;> rfl

/-! ## Palette-quantized images -/

/-- The palette a pixel buffer must be drawn from to count as
"palette-quantized for the given color mode" (spec §3: two-color =
black/white, three-color = black/white/red, four-color and six-color their
respective tables). -/
def modeQuantPalette : DitherMode → List ColorPaletteItem
  | .blackWhiteColor => [rgbBlack, rgbWhite]
  | .threeColor => threeColorPalette
  | .fourColor => fourColorPalette
  | .sixColor => rgbPalette

/-- Every pixel of `img` is exactly one of the palette colors, with alpha 255,
and the buffer is well formed (zero beyond its RGBA range). -/
def QuantizedImage (img : ImageData) (pal : List ColorPaletteItem) : Prop :=
  img.WF ∧ ∀ p : ℕ × ℕ, p.1 < img.height → p.2 < img.width →
    ∃ e ∈ pal, img.data ((p.1 * img.width + p.2) * 4) = e.r ∧
      img.data ((p.1 * img.width + p.2) * 4 + 1) = e.g ∧
      img.data ((p.1 * img.width + p.2) * 4 + 2) = e.b ∧
      img.data ((p.1 * img.width + p.2) * 4 + 3) = 255

theorem ImageData.ext' {a b : ImageData} (hw : a.width = b.width)
    (hh : a.height = b.height) (hd : a.data = b.data) : a = b := by
  cases a
  cases b
  cases hw
  cases hh
  cases hd
  rfl

theorem linear_lt {w h y x : ℕ} (hy : y < h) (hx : x < w) : y * w + x < w * h :=
  calc y * w + x < y * w + w := by omega
  _ = (y + 1) * w := by ring
  _ ≤ h * w := Nat.mul_le_mul_right w hy
  _ = w * h := Nat.mul_comm h w

theorem index_decomp {w h i : ℕ} (hw : 0 < w) (hi : i < 4 * w * h) :
    ∃ y x c, y < h ∧ x < w ∧ c < 4 ∧ i = (y * w + x) * 4 + c := by
  have h4 : 4 * w * h = (w * h) * 4 := by ring
  have hL : i / 4 < w * h := by
    rw [Nat.div_lt_iff_lt_mul (by norm_num)]
    omega
  have hx : (i / 4) % w < w := Nat.mod_lt _ hw
  have hy : (i / 4) / w < h := by
    rw [Nat.div_lt_iff_lt_mul hw]
    calc i / 4 < w * h := hL
    _ = h * w := Nat.mul_comm w h
  refine ⟨(i / 4) / w, (i / 4) % w, i % 4, hy, hx, Nat.mod_lt _ (by norm_num), ?_⟩
  have e1 := Nat.div_add_mod (i / 4) w
  have e2 := Nat.div_add_mod i 4
  have e3 : ((i / 4) / w * w + (i / 4) % w) * 4 = (i / 4) * 4 := by
    conv_lhs => rw [show (i / 4) / w * w + (i / 4) % w = w * ((i / 4) / w) + (i / 4) % w by ring]
    rw [e1]
  omega

theorem dec_no_touch {w : ℕ} {p q : ℕ × ℕ} (hpx : p.2 < w) (hqx : q.2 < w)
    (hne : q ≠ p) {c : ℕ} (hc : c < 4) :
    ¬((q.1 * w + q.2) * 4 ≤ (p.1 * w + p.2) * 4 + c ∧
      (p.1 * w + p.2) * 4 + c < (q.1 * w + q.2) * 4 + 4) := by
  rintro ⟨h1, h2⟩
  have hlin : q.1 * w + q.2 = p.1 * w + p.2 := by omega
  obtain ⟨hy, hx⟩ := euclid_unique hqx hpx hlin
  exact hne (Prod.ext hy hx)

theorem dec_out_of_range {w h i : ℕ} (hi : 4 * w * h ≤ i) :
    ∀ q ∈ pixelSeq w h, ¬((q.1 * w + q.2) * 4 ≤ i ∧ i < (q.1 * w + q.2) * 4 + 4) := by
  rintro q hq ⟨h1, h2⟩
  obtain ⟨hqy, hqx⟩ := pixelSeq_mem.mp hq
  have hl := linear_lt hqy hqx
  have h4 : 4 * w * h = (w * h) * 4 := by ring
  omega

/-! ## The threshold bits on exact palette colors -/

theorem lumBit_of_channels {d : ℕ → ℚ} {w y x : ℕ} (r g b : ℚ)
    (h0 : d ((y * w + x) * 4) = r) (h1 : d ((y * w + x) * 4 + 1) = g)
    (h2 : d ((y * w + x) * 4 + 2) = b) :
    lumBit d w y x = if jsRound (0.299 * r + 0.587 * g + 0.114 * b) ≥ 140 then 1 else 0 := by
  unfold lumBit
  rw [h0, h1, h2]

theorem redBit_of_channels {d : ℕ → ℚ} {w y x : ℕ} (r g b : ℚ)
    (h0 : d ((y * w + x) * 4) = r) (h1 : d ((y * w + x) * 4 + 1) = g)
    (h2 : d ((y * w + x) * 4 + 2) = b) :
    redBit d w y x = if r > 160 ∧ r > g ∧ r > b then 0 else 1 := by
  unfold redBit
  rw [h0, h1, h2]

theorem jsRound_black : jsRound (0.299 * 0 + 0.587 * 0 + 0.114 * 0) = 0 := by
  unfold jsRound
  rw [Int.floor_eq_iff]
  norm_num

theorem jsRound_white : jsRound (0.299 * 255 + 0.587 * 255 + 0.114 * 255) = 255 := by
  unfold jsRound
  rw [Int.floor_eq_iff]
  norm_num

theorem jsRound_red : jsRound (0.299 * 255 + 0.587 * 0 + 0.114 * 0) = 76 := by
  unfold jsRound
  rw [Int.floor_eq_iff]
  norm_num

/-! ## Round trip: two-color mode -/

theorem roundtrip_bw (img : ImageData)
    (hq : QuantizedImage img [rgbBlack, rgbWhite]) :
    decodeProcessedData (processImageData img .blackWhiteColor)
      img.width img.height .blackWhiteColor = img := by
  obtain ⟨hwf, hpix⟩ := hq
  refine ImageData.ext' (decode_width _ _ _ _) (decode_height _ _ _ _) (funext fun i => ?_)
  rw [decode_bw_data]
  by_cases hi : i < 4 * img.width * img.height
  · rcases Nat.eq_zero_or_pos img.width with hw0 | hw0
    · rw [hw0] at hi
      norm_num at hi
    obtain ⟨y, x, c, hy, hx, hc, hi4⟩ := index_decomp hw0 hi
    subst hi4
    obtain ⟨l1, l2, hsplit, hnl1, hnl2, hml1, hml2⟩ :=
      pixelSeq_split (w := img.width) (h := img.height) (p := (y, x))
        (pixelSeq_mem.mpr ⟨hy, hx⟩)
    rw [hsplit, List.foldl_append, List.foldl_cons,
      bwDec_fold_preserve _ _ _ l2 _ _ (fun q hq' => by
        have hqm := pixelSeq_mem.mp (hml2 q hq')
        have hqp : q ≠ ((y, x) : ℕ × ℕ) := fun he => hnl2 (he ▸ hq')
        have := dec_no_touch (p := (y, x)) hx hqm.2 hqp hc
        exact this)]
    unfold bwDecStep
    dsimp only
    have hb := pack_bw_bit img (y, x) hy hx
    dsimp only at hb
    rw [extract_bit, hb]
    obtain ⟨e, he, hr', hg', hb', ha'⟩ := hpix (y, x) hy hx
    dsimp only at hr' hg' hb' ha'
    have hlum := lumBit_of_channels e.r e.g e.b hr' hg' hb'
    simp only [List.mem_cons, List.not_mem_nil, or_false] at he
    rcases he with rfl | rfl
    · -- black pixel
      simp only [rgbBlack] at hlum hr' hg' hb'
      have hlv : lumBit img.data img.width y x = 0 := by
        simp only [jsRound_black] at hlum
        rw [hlum]
        norm_num
      simp only [hlv]
      interval_cases c
      · simp only [Nat.add_zero, upd4_at0]
        rw [hr']
        norm_num
      · simp only [upd4_at1]
        rw [hg']
        norm_num
      · simp only [upd4_at2]
        rw [hb']
        norm_num
      · simp only [upd4_at3]
        rw [ha']
    · -- white pixel
      simp only [rgbWhite] at hlum hr' hg' hb'
      have hlv : lumBit img.data img.width y x = 1 := by
        simp only [jsRound_white] at hlum
        rw [hlum]
        norm_num
      simp only [hlv]
      interval_cases c
      · simp only [Nat.add_zero, upd4_at0]
        rw [hr']
        norm_num
      · simp only [upd4_at1]
        rw [hg']
        norm_num
      · simp only [upd4_at2]
        rw [hb']
        norm_num
      · simp only [upd4_at3]
        rw [ha']
  · rw [hwf i (by omega), bwDec_fold_preserve _ _ _ _ _ _ (dec_out_of_range (by omega))]

/-! ## Round trip: three-color mode -/

theorem roundtrip_three (img : ImageData)
    (hq : QuantizedImage img threeColorPalette) :
    decodeProcessedData (processImageData img .threeColor)
      img.width img.height .threeColor = img := by
  obtain ⟨hwf, hpix⟩ := hq
  refine ImageData.ext' (decode_width _ _ _ _) (decode_height _ _ _ _) (funext fun i => ?_)
  rw [decode_three_data]
  by_cases hi : i < 4 * img.width * img.height
  · rcases Nat.eq_zero_or_pos img.width with hw0 | hw0
    · rw [hw0] at hi
      norm_num at hi
    obtain ⟨y, x, c, hy, hx, hc, hi4⟩ := index_decomp hw0 hi
    subst hi4
    obtain ⟨l1, l2, hsplit, hnl1, hnl2, hml1, hml2⟩ :=
      pixelSeq_split (w := img.width) (h := img.height) (p := (y, x))
        (pixelSeq_mem.mpr ⟨hy, hx⟩)
    rw [hsplit, List.foldl_append, List.foldl_cons,
      threeDec_fold_preserve _ _ _ _ l2 _ _ (fun q hq' => by
        have hqm := pixelSeq_mem.mp (hml2 q hq')
        have hqp : q ≠ ((y, x) : ℕ × ℕ) := fun he => hnl2 (he ▸ hq')
        exact dec_no_touch (p := (y, x)) hx hqm.2 hqp hc)]
    unfold threeDecStep
    dsimp only
    have hbw := pack_three_bw_bit img (y, x) hy hx
    have hrd := pack_three_rd_bit img (y, x) hy hx
    dsimp only at hbw hrd
    rw [show ((img.width + 7) / 8) * img.height = img.height * ((img.width + 7) / 8)
      from Nat.mul_comm _ _]
    rw [extract_bit, extract_bit, hbw, hrd]
    obtain ⟨e, he, hr', hg', hb', ha'⟩ := hpix (y, x) hy hx
    dsimp only at hr' hg' hb' ha'
    have hlum := lumBit_of_channels e.r e.g e.b hr' hg' hb'
    have hred := redBit_of_channels e.r e.g e.b hr' hg' hb'
    simp only [threeColorPalette, List.mem_cons, List.not_mem_nil, or_false] at he
    rcases he with rfl | rfl | rfl
    · -- black pixel
      dsimp only at hlum hred hr' hg' hb'
      have hlv : lumBit img.data img.width y x = 0 := by
        simp only [jsRound_black] at hlum
        rw [hlum]
        norm_num
      have hrv : redBit img.data img.width y x = 1 := by
        rw [hred]
        norm_num
      simp only [hlv, hrv]
      norm_num
      interval_cases c
      · simp only [Nat.add_zero, upd4_at0]
        rw [hr']
      · simp only [upd4_at1]
        rw [hg']
      · simp only [upd4_at2]
        rw [hb']
      · simp only [upd4_at3]
        rw [ha']
    · -- white pixel
      dsimp only at hlum hred hr' hg' hb'
      have hlv : lumBit img.data img.width y x = 1 := by
        simp only [jsRound_white] at hlum
        rw [hlum]
        norm_num
      have hrv : redBit img.data img.width y x = 1 := by
        rw [hred]
        norm_num
      simp only [hlv, hrv]
      norm_num
      interval_cases c
      · simp only [Nat.add_zero, upd4_at0]
        rw [hr']
      · simp only [upd4_at1]
        rw [hg']
      · simp only [upd4_at2]
        rw [hb']
      · simp only [upd4_at3]
        rw [ha']
    · -- red pixel
      dsimp only at hlum hred hr' hg' hb'
      have hrv : redBit img.data img.width y x = 0 := by
        rw [hred]
        norm_num
      simp only [hrv]
      norm_num
      interval_cases c
      · simp only [Nat.add_zero, upd4_at0]
        rw [hr']
      · simp only [upd4_at1]
        rw [hg']
      · simp only [upd4_at2]
        rw [hb']
      · simp only [upd4_at3]
        rw [ha']
  · rw [hwf i (by omega),
      threeDec_fold_preserve _ _ _ _ _ _ _ (dec_out_of_range (by omega))]

/-! ## Round trip: six-color mode -/

theorem roundtrip_six (img : ImageData)
    (hq : QuantizedImage img rgbPalette) :
    decodeProcessedData (processImageData img .sixColor)
      img.width img.height .sixColor = img := by
  obtain ⟨hwf, hpix⟩ := hq
  refine ImageData.ext' (decode_width _ _ _ _) (decode_height _ _ _ _) (funext fun i => ?_)
  rw [decode_six_data]
  by_cases hi : i < 4 * img.width * img.height
  · rcases Nat.eq_zero_or_pos img.width with hw0 | hw0
    · rw [hw0] at hi
      norm_num at hi
    obtain ⟨y, x, c, hy, hx, hc, hi4⟩ := index_decomp hw0 hi
    subst hi4
    obtain ⟨l1, l2, hsplit, hnl1, hnl2, hml1, hml2⟩ :=
      pixelSeq_split (w := img.width) (h := img.height) (p := (y, x))
        (pixelSeq_mem.mpr ⟨hy, hx⟩)
    rw [hsplit, List.foldl_append, List.foldl_cons,
      sixDec_fold_preserve _ _ _ l2 _ _ (fun q hq' => by
        have hqm := pixelSeq_mem.mp (hml2 q hq')
        have hqp : q ≠ ((y, x) : ℕ × ℕ) := fun he => hnl2 (he ▸ hq')
        exact dec_no_touch (p := (y, x)) hx hqm.2 hqp hc)]
    unfold sixDecStep
    dsimp only
    have hpk := pack_six_value img (y, x) hy hx
    dsimp only at hpk
    obtain ⟨e, he, hr', hg', hb', ha'⟩ := hpix (y, x) hy hx
    dsimp only at hr' hg' hb' ha'
    simp only [rgbPalette, List.mem_cons, List.not_mem_nil, or_false] at he
    rcases he with rfl | rfl | rfl | rfl | rfl | rfl
    · dsimp only at hr' hg' hb'
      rw [hr', hg', hb', closest_six_yellow] at hpk
      dsimp only at hpk
      rw [hpk,
        show ((rgbPalette.find? fun c => c.value == 0xe2).getD rgbWhite)
          = (⟨"黄色", 255, 255, 0, 0xe2⟩ : ColorPaletteItem) from rfl]
      interval_cases c
      · simp only [Nat.add_zero, upd4_at0]
        rw [hr']
      · simp only [upd4_at1]
        rw [hg']
      · simp only [upd4_at2]
        rw [hb']
      · simp only [upd4_at3]
        rw [ha']
    · dsimp only at hr' hg' hb'
      rw [hr', hg', hb', closest_six_green] at hpk
      dsimp only at hpk
      rw [hpk,
        show ((rgbPalette.find? fun c => c.value == 0x96).getD rgbWhite)
          = (⟨"绿色", 41, 204, 20, 0x96⟩ : ColorPaletteItem) from rfl]
      interval_cases c
      · simp only [Nat.add_zero, upd4_at0]
        rw [hr']
      · simp only [upd4_at1]
        rw [hg']
      · simp only [upd4_at2]
        rw [hb']
      · simp only [upd4_at3]
        rw [ha']
    · dsimp only at hr' hg' hb'
      rw [hr', hg', hb', closest_six_blue] at hpk
      dsimp only at hpk
      rw [hpk,
        show ((rgbPalette.find? fun c => c.value == 0x1d).getD rgbWhite)
          = (⟨"蓝色", 0, 0, 255, 0x1d⟩ : ColorPaletteItem) from rfl]
      interval_cases c
      · simp only [Nat.add_zero, upd4_at0]
        rw [hr']
      · simp only [upd4_at1]
        rw [hg']
      · simp only [upd4_at2]
        rw [hb']
      · simp only [upd4_at3]
        rw [ha']
    · dsimp only at hr' hg' hb'
      rw [hr', hg', hb', closest_six_red] at hpk
      dsimp only at hpk
      rw [hpk,
        show ((rgbPalette.find? fun c => c.value == 0x4c).getD rgbWhite)
          = (⟨"红色", 255, 0, 0, 0x4c⟩ : ColorPaletteItem) from rfl]
      interval_cases c
      · simp only [Nat.add_zero, upd4_at0]
        rw [hr']
      · simp only [upd4_at1]
        rw [hg']
      · simp only [upd4_at2]
        rw [hb']
      · simp only [upd4_at3]
        rw [ha']
    · dsimp only at hr' hg' hb'
      rw [hr', hg', hb', closest_six_black] at hpk
      dsimp only at hpk
      rw [hpk,
        show ((rgbPalette.find? fun c => c.value == 0x00).getD rgbWhite)
          = (⟨"黑色", 0, 0, 0, 0x00⟩ : ColorPaletteItem) from rfl]
      interval_cases c
      · simp only [Nat.add_zero, upd4_at0]
        rw [hr']
      · simp only [upd4_at1]
        rw [hg']
      · simp only [upd4_at2]
        rw [hb']
      · simp only [upd4_at3]
        rw [ha']
    · dsimp only at hr' hg' hb'
      rw [hr', hg', hb', closest_six_white] at hpk
      dsimp only at hpk
      rw [hpk,
        show ((rgbPalette.find? fun c => c.value == 0xff).getD rgbWhite)
          = (⟨"白色", 255, 255, 255, 0xff⟩ : ColorPaletteItem) from rfl]
      interval_cases c
      · simp only [Nat.add_zero, upd4_at0]
        rw [hr']
      · simp only [upd4_at1]
        rw [hg']
      · simp only [upd4_at2]
        rw [hb']
      · simp only [upd4_at3]
        rw [ha']
  · rw [hwf i (by omega),
      sixDec_fold_preserve _ _ _ _ _ _ (dec_out_of_range (by omega))]

/-! ## Round trip: four-color mode (width a multiple of 4) -/

theorem roundtrip_four (img : ImageData) (hw : img.width % 4 = 0)
    (hq : QuantizedImage img fourColorPalette) :
    decodeProcessedData (processImageData img .fourColor)
      img.width img.height .fourColor = img := by
  obtain ⟨hwf, hpix⟩ := hq
  refine ImageData.ext' (decode_width _ _ _ _) (decode_height _ _ _ _) (funext fun i => ?_)
  rw [decode_four_data]
  by_cases hi : i < 4 * img.width * img.height
  · rcases Nat.eq_zero_or_pos img.width with hw0 | hw0
    · rw [hw0] at hi
      norm_num at hi
    obtain ⟨y, x, c, hy, hx, hc, hi4⟩ := index_decomp hw0 hi
    subst hi4
    obtain ⟨l1, l2, hsplit, hnl1, hnl2, hml1, hml2⟩ :=
      pixelSeq_split (w := img.width) (h := img.height) (p := (y, x))
        (pixelSeq_mem.mpr ⟨hy, hx⟩)
    rw [hsplit, List.foldl_append, List.foldl_cons,
      fourDec_fold_preserve _ _ l2 _ _ (fun q hq' => by
        have hqm := pixelSeq_mem.mp (hml2 q hq')
        have hqp : q ≠ ((y, x) : ℕ × ℕ) := fun he => hnl2 (he ▸ hq')
        exact dec_no_touch (p := (y, x)) hx hqm.2 hqp hc)]
    unfold fourDecStep
    dsimp only
    have hb0 := pack_four_bit img hw (y, x) hy hx 0 (by norm_num)
    have hb1 := pack_four_bit img hw (y, x) hy hx 1 (by norm_num)
    rw [Nat.add_zero] at hb0
    dsimp only at hb0 hb1
    rw [extract_two_bits, hb0, hb1]
    obtain ⟨e, he, hr', hg', hb', ha'⟩ := hpix (y, x) hy hx
    dsimp only at hr' hg' hb' ha'
    simp only [fourColorPalette, List.mem_cons, List.not_mem_nil, or_false] at he
    rcases he with rfl | rfl | rfl | rfl
    · dsimp only at hr' hg' hb'
      rw [hr', hg', hb', closest_four_black]
      interval_cases c
      · simp only [Nat.add_zero, upd4_at0]
        rw [hr']
        rfl
      · simp only [upd4_at1]
        rw [hg']
        rfl
      · simp only [upd4_at2]
        rw [hb']
        rfl
      · simp only [upd4_at3]
        rw [ha']
    · dsimp only at hr' hg' hb'
      rw [hr', hg', hb', closest_four_white]
      interval_cases c
      · simp only [Nat.add_zero, upd4_at0]
        rw [hr']
        rfl
      · simp only [upd4_at1]
        rw [hg']
        rfl
      · simp only [upd4_at2]
        rw [hb']
        rfl
      · simp only [upd4_at3]
        rw [ha']
    · dsimp only at hr' hg' hb'
      rw [hr', hg', hb', closest_four_red]
      interval_cases c
      · simp only [Nat.add_zero, upd4_at0]
        rw [hr']
        rfl
      · simp only [upd4_at1]
        rw [hg']
        rfl
      · simp only [upd4_at2]
        rw [hb']
        rfl
      · simp only [upd4_at3]
        rw [ha']
    · dsimp only at hr' hg' hb'
      rw [hr', hg', hb', closest_four_yellow]
      interval_cases c
      · simp only [Nat.add_zero, upd4_at0]
        rw [hr']
        rfl
      · simp only [upd4_at1]
        rw [hg']
        rfl
      · simp only [upd4_at2]
        rw [hb']
        rfl
      · simp only [upd4_at3]
        rw [ha']
  · rw [hwf i (by omega),
      fourDec_fold_preserve _ _ _ _ _ (dec_out_of_range (by omega))]

/-! ## `adjustContrast` (part_000 lines 1401–1409) -/

/-- `adjustContrast(imageData, factor)`: per channel
`data[i] = Math.min(255, Math.max(0, (data[i] - 128) * factor + 128))` for the
R, G, B bytes of every pixel; the alpha byte is never written.  `cstore`
carries both the explicit clamp and the clamped-array store rounding. -/
def adjustContrast (img : ImageData) (factor : ℚ) : ImageData :=
  { img with data := ((List.range (img.width * img.height)).foldl
      (fun d k =>
        let i := 4 * k
        let d0 := Function.update d i (cstore ((d i - 128) * factor + 128))
        let d1 := Function.update d0 (i + 1) (cstore ((d0 (i + 1) - 128) * factor + 128))
        Function.update d1 (i + 2) (cstore ((d1 (i + 2) - 128) * factor + 128)))
      img.data) }

/-! ## The dithering algorithms (part_000 lines 1505–1937) -/

/-- One neighbour update of an error-diffusion kernel: the three channel
stores `temp[i+c] = Math.min(255, Math.max(0, temp[i+c] + err_c * fraction))`
(R, G, B in sequence). -/
def diffuse (t : ℕ → ℚ) (i : ℕ) (eR eG eB f : ℚ) : ℕ → ℚ :=
  let t0 := Function.update t i (cstore (t i + eR * f))
  let t1 := Function.update t0 (i + 1) (cstore (t0 (i + 1) + eG * f))
  Function.update t1 (i + 2) (cstore (t1 (i + 2) + eB * f))

/-- The three data stores `data[idx+c] = closest.{r,g,b}`. -/
def upd3 (d : ℕ → ℚ) (i : ℕ) (v0 v1 v2 : ℚ) : ℕ → ℚ :=
  Function.update (Function.update (Function.update d i v0) (i + 1) v1) (i + 2) v2

/-- First pass of Floyd–Steinberg: quantize the temp pixel, diffuse the error
right 7/16, down-left 3/16, down 5/16, down-right 1/16 (with the source's
bounds guards). -/
noncomputable def fsPass1Step (w h : ℕ) (strength : ℚ) (mode : DitherMode)
    (t : ℕ → ℚ) (p : ℕ × ℕ) : ℕ → ℚ :=
  let idx := (p.1 * w + p.2) * 4
  let closest := findClosestColor (t idx) (t (idx + 1)) (t (idx + 2)) mode
  let errR := (t idx - closest.r) * strength
  let errG := (t (idx + 1) - closest.g) * strength
  let errB := (t (idx + 2) - closest.b) * strength
  let t1 := if p.2 + 1 < w then diffuse t (idx + 4) errR errG errB (7/16) else t
  if p.1 + 1 < h then
    let t2 := if p.2 > 0 then diffuse t1 (idx + w * 4 - 4) errR errG errB (3/16) else t1
    let t3 := diffuse t2 (idx + w * 4) errR errG errB (5/16)
    if p.2 + 1 < w then diffuse t3 (idx + w * 4 + 4) errR errG errB (1/16) else t3
  else t1

/-- The second full pass shared by Floyd–Steinberg and Stucki: re-quantize the
error-adjusted temp buffer and write the final colors into `data`. -/
noncomputable def writeClosestStep (w : ℕ) (mode : DitherMode) (t : ℕ → ℚ)
    (d : ℕ → ℚ) (p : ℕ × ℕ) : ℕ → ℚ :=
  let idx := (p.1 * w + p.2) * 4
  let closest := findClosestColor (t idx) (t (idx + 1)) (t (idx + 2)) mode
  upd3 d idx closest.r closest.g closest.b

/-- `floydSteinbergDither` (line 1505): error diffusion on a copy of the
buffer, then a second quantization pass into `data`. -/
noncomputable def floydSteinbergDither (img : ImageData) (strength : ℚ)
    (mode : DitherMode) : ImageData :=
  let tempData := (pixelSeq img.width img.height).foldl
    (fsPass1Step img.width img.height strength mode) img.data
  { img with data := ((pixelSeq img.width img.height).foldl
      (writeClosestStep img.width mode tempData) img.data) }

/-- `atkinsonDither` (line 1571): single pass writing the quantized color to
`data` immediately while diffusing 1/8 of the error to six neighbours of the
temp buffer. -/
noncomputable def atkinsonStep (w h : ℕ) (strength : ℚ) (mode : DitherMode)
    (st : (ℕ → ℚ) × (ℕ → ℚ)) (p : ℕ × ℕ) : (ℕ → ℚ) × (ℕ → ℚ) :=
  let t := st.2
  let idx := (p.1 * w + p.2) * 4
  let closest := findClosestColor (t idx) (t (idx + 1)) (t (idx + 2)) mode
  let d1 := upd3 st.1 idx closest.r closest.g closest.b
  let errR := (t idx - closest.r) * strength
  let errG := (t (idx + 1) - closest.g) * strength
  let errB := (t (idx + 2) - closest.b) * strength
  let t1 := if p.2 + 1 < w then diffuse t (idx + 4) errR errG errB (1/8) else t
  let t2 := if p.2 + 2 < w then diffuse t1 (idx + 8) errR errG errB (1/8) else t1
  let t5 := if p.1 + 1 < h then
      let ta := if p.2 > 0 then diffuse t2 (idx + w * 4 - 4) errR errG errB (1/8) else t2
      let tb := diffuse ta (idx + w * 4) errR errG errB (1/8)
      if p.2 + 1 < w then diffuse tb (idx + w * 4 + 4) errR errG errB (1/8) else tb
    else t2
  let t6 := if p.1 + 2 < h then diffuse t5 (idx + w * 8) errR errG errB (1/8) else t5
  (d1, t6)

noncomputable def atkinsonDither (img : ImageData) (strength : ℚ)
    (mode : DitherMode) : ImageData :=
  { img with data := (((pixelSeq img.width img.height).foldl
      (atkinsonStep img.width img.height strength mode) (img.data, img.data)).1) }

/-- `stuckiDither` (line 1641): two-pass with divisor 42 and the 12-neighbour
Stucki kernel. -/
noncomputable def stuckiPass1Step (w h : ℕ) (strength : ℚ) (mode : DitherMode)
    (t : ℕ → ℚ) (p : ℕ × ℕ) : ℕ → ℚ :=
  let idx := (p.1 * w + p.2) * 4
  let closest := findClosestColor (t idx) (t (idx + 1)) (t (idx + 2)) mode
  let errR := (t idx - closest.r) * strength
  let errG := (t (idx + 1) - closest.g) * strength
  let errB := (t (idx + 2) - closest.b) * strength
  let t1 := if p.2 + 1 < w then diffuse t (idx + 4) errR errG errB (8/42) else t
  let t2 := if p.2 + 2 < w then diffuse t1 (idx + 8) errR errG errB (4/42) else t1
  let t7 := if p.1 + 1 < h then
      let ta := if p.2 > 1 then diffuse t2 (idx + w * 4 - 8) errR errG errB (2/42) else t2
      let tb := if p.2 > 0 then diffuse ta (idx + w * 4 - 4) errR errG errB (4/42) else ta
      let tc := diffuse tb (idx + w * 4) errR errG errB (8/42)
      let td := if p.2 + 1 < w then diffuse tc (idx + w * 4 + 4) errR errG errB (4/42) else tc
      if p.2 + 2 < w then diffuse td (idx + w * 4 + 8) errR errG errB (2/42) else td
    else t2
  if p.1 + 2 < h then
    let ta := if p.2 > 1 then diffuse t7 (idx + w * 8 - 8) errR errG errB (1/42) else t7
    let tb := if p.2 > 0 then diffuse ta (idx + w * 8 - 4) errR errG errB (2/42) else ta
    let tc := diffuse tb (idx + w * 8) errR errG errB (4/42)
    let td := if p.2 + 1 < w then diffuse tc (idx + w * 8 + 4) errR errG errB (2/42) else tc
    if p.2 + 2 < w then diffuse td (idx + w * 8 + 8) errR errG errB (1/42) else td
  else t7

noncomputable def stuckiDither (img : ImageData) (strength : ℚ)
    (mode : DitherMode) : ImageData :=
  let tempData := (pixelSeq img.width img.height).foldl
    (stuckiPass1Step img.width img.height strength mode) img.data
  { img with data := ((pixelSeq img.width img.height).foldl
      (writeClosestStep img.width mode tempData) img.data) }

/-- `jarvisDither` (line 1758): single pass writing the quantized color to
`data` immediately, divisor 48, weights 7,5 / 3,5,7,5,3 / 1,3,5,3,1. -/
noncomputable def jarvisStep (w h : ℕ) (strength : ℚ) (mode : DitherMode)
    (st : (ℕ → ℚ) × (ℕ → ℚ)) (p : ℕ × ℕ) : (ℕ → ℚ) × (ℕ → ℚ) :=
  let t := st.2
  let idx := (p.1 * w + p.2) * 4
  let closest := findClosestColor (t idx) (t (idx + 1)) (t (idx + 2)) mode
  let d1 := upd3 st.1 idx closest.r closest.g closest.b
  let errR := (t idx - closest.r) * strength
  let errG := (t (idx + 1) - closest.g) * strength
  let errB := (t (idx + 2) - closest.b) * strength
  let t1 := if p.2 + 1 < w then diffuse t (idx + 4) errR errG errB (7/48) else t
  let t2 := if p.2 + 2 < w then diffuse t1 (idx + 8) errR errG errB (5/48) else t1
  let t7 := if p.1 + 1 < h then
      let ta := if p.2 > 1 then diffuse t2 (idx + w * 4 - 8) errR errG errB (3/48) else t2
      let tb := if p.2 > 0 then diffuse ta (idx + w * 4 - 4) errR errG errB (5/48) else ta
      let tc := diffuse tb (idx + w * 4) errR errG errB (7/48)
      let td := if p.2 + 1 < w then diffuse tc (idx + w * 4 + 4) errR errG errB (5/48) else tc
      if p.2 + 2 < w then diffuse td (idx + w * 4 + 8) errR errG errB (3/48) else td
    else t2
  let t12 := if p.1 + 2 < h then
      let ta := if p.2 > 1 then diffuse t7 (idx + w * 8 - 8) errR errG errB (1/48) else t7
      let tb := if p.2 > 0 then diffuse ta (idx + w * 8 - 4) errR errG errB (3/48) else ta
      let tc := diffuse tb (idx + w * 8) errR errG errB (5/48)
      let td := if p.2 + 1 < w then diffuse tc (idx + w * 8 + 4) errR errG errB (3/48) else tc
      if p.2 + 2 < w then diffuse td (idx + w * 8 + 8) errR errG errB (1/48) else td
    else t7
  (d1, t12)

noncomputable def jarvisDither (img : ImageData) (strength : ℚ)
    (mode : DitherMode) : ImageData :=
  { img with data := (((pixelSeq img.width img.height).foldl
      (jarvisStep img.width img.height strength mode) (img.data, img.data)).1) }

/-- The 8×8 Bayer threshold matrix of `bayerDither` (line 1870). -/
def bayerMatrix : List (List ℚ) :=
  [[0, 32, 8, 40, 2, 34, 10, 42],
   [48, 16, 56, 24, 50, 18, 58, 26],
   [12, 44, 4, 36, 14, 46, 6, 38],
   [60, 28, 52, 20, 62, 30, 54, 22],
   [3, 35, 11, 43, 1, 33, 9, 41],
   [51, 19, 59, 27, 49, 17, 57, 25],
   [15, 47, 7, 39, 13, 45, 5, 37],
   [63, 31, 55, 23, 61, 29, 53, 21]]

/-- `bayerDither` (line 1864): ordered dithering, no error propagation; each
channel is perturbed by `(threshold/64·255 − 127.5)·strength`, clamped, and
quantized. -/
noncomputable def bayerStep (w : ℕ) (strength : ℚ) (mode : DitherMode)
    (d : ℕ → ℚ) (p : ℕ × ℕ) : ℕ → ℚ :=
  let idx := (p.1 * w + p.2) * 4
  let threshold := (bayerMatrix.getD (p.1 % 8) []).getD (p.2 % 8) 0 / 64 * 255
  let adjustedR := d idx + (threshold - 127.5) * strength
  let adjustedG := d (idx + 1) + (threshold - 127.5) * strength
  let adjustedB := d (idx + 2) + (threshold - 127.5) * strength
  let closest := findClosestColor (min 255 (max 0 adjustedR)) (min 255 (max 0 adjustedG))
    (min 255 (max 0 adjustedB)) mode
  upd3 d idx closest.r closest.g closest.b

noncomputable def bayerDither (img : ImageData) (strength : ℚ)
    (mode : DitherMode) : ImageData :=
  { img with data := ((pixelSeq img.width img.height).foldl
      (bayerStep img.width strength mode) img.data) }

/-- `ditherImage` (part_000 line 1921): algorithm dispatch; `'none'` (and the
`default` branch) returns the image unchanged. -/
noncomputable def ditherImage (img : ImageData) (alg : DitherAlgorithm)
    (strength : ℚ) (mode : DitherMode) : ImageData :=
  match alg with
  | .floydSteinberg => floydSteinbergDither img strength mode
  | .atkinson => atkinsonDither img strength mode
  | .stucki => stuckiDither img strength mode
  | .jarvis => jarvisDither img strength mode
  | .bayer => bayerDither img strength mode
  | .none => img

/-! ## Alpha-channel preservation of the dithering module (for C9) -/

theorem upd3_alpha (d : ℕ → ℚ) (i : ℕ) (v0 v1 v2 : ℚ) (j : ℕ)
    (h0 : i ≠ j) (h1 : i + 1 ≠ j) (h2 : i + 2 ≠ j) :
    upd3 d i v0 v1 v2 j = d j := by
  unfold upd3
  rw [Function.update_noteq (fun he => h2 he.symm),
    Function.update_noteq (fun he => h1 he.symm),
    Function.update_noteq (fun he => h0 he.symm)]

theorem adjustContrast_alpha (img : ImageData) (f : ℚ) (a : ℕ) :
    (adjustContrast img f).data (4 * a + 3) = img.data (4 * a + 3) := by
  unfold adjustContrast
  dsimp only
  refine foldl_obs _ (fun d => d (4 * a + 3)) _ img.data (fun d k _ => ?_)
  dsimp only
  rw [Function.update_noteq (by omega), Function.update_noteq (by omega),
    Function.update_noteq (by omega)]

theorem writeClosestStep_alpha (w : ℕ) (mode : DitherMode) (t d : ℕ → ℚ)
    (p : ℕ × ℕ) (a : ℕ) :
    writeClosestStep w mode t d p (4 * a + 3) = d (4 * a + 3) := by
  obtain ⟨y, x⟩ := p
  unfold writeClosestStep
  dsimp only
  generalize y * w + x = L
  exact upd3_alpha _ _ _ _ _ _ (by omega) (by omega) (by omega)

theorem floydSteinbergDither_alpha (img : ImageData) (s : ℚ) (mode : DitherMode) (a : ℕ) :
    (floydSteinbergDither img s mode).data (4 * a + 3) = img.data (4 * a + 3) := by
  unfold floydSteinbergDither
  dsimp only
  exact foldl_obs _ (fun d => d (4 * a + 3)) _ img.data
    (fun d p _ => writeClosestStep_alpha _ _ _ _ _ _)

theorem stuckiDither_alpha (img : ImageData) (s : ℚ) (mode : DitherMode) (a : ℕ) :
    (stuckiDither img s mode).data (4 * a + 3) = img.data (4 * a + 3) := by
  unfold stuckiDither
  dsimp only
  exact foldl_obs _ (fun d => d (4 * a + 3)) _ img.data
    (fun d p _ => writeClosestStep_alpha _ _ _ _ _ _)

theorem atkinsonStep_alpha (w h : ℕ) (s : ℚ) (mode : DitherMode)
    (st : (ℕ → ℚ) × (ℕ → ℚ)) (p : ℕ × ℕ) (a : ℕ) :
    (atkinsonStep w h s mode st p).1 (4 * a + 3) = st.1 (4 * a + 3) := by
  obtain ⟨y, x⟩ := p
  unfold atkinsonStep
  dsimp only
  generalize y * w + x = L
  exact upd3_alpha _ _ _ _ _ _ (by omega) (by omega) (by omega)

theorem atkinsonDither_alpha (img : ImageData) (s : ℚ) (mode : DitherMode) (a : ℕ) :
    (atkinsonDither img s mode).data (4 * a + 3) = img.data (4 * a + 3) := by
  unfold atkinsonDither
  dsimp only
  exact foldl_obs _ (fun st => st.1 (4 * a + 3)) _ (img.data, img.data)
    (fun st p _ => atkinsonStep_alpha _ _ _ _ _ _ _)

theorem jarvisStep_alpha (w h : ℕ) (s : ℚ) (mode : DitherMode)
    (st : (ℕ → ℚ) × (ℕ → ℚ)) (p : ℕ × ℕ) (a : ℕ) :
    (jarvisStep w h s mode st p).1 (4 * a + 3) = st.1 (4 * a + 3) := by
  obtain ⟨y, x⟩ := p
  unfold jarvisStep
  dsimp only
  generalize y * w + x = L
  exact upd3_alpha _ _ _ _ _ _ (by omega) (by omega) (by omega)

theorem jarvisDither_alpha (img : ImageData) (s : ℚ) (mode : DitherMode) (a : ℕ) :
    (jarvisDither img s mode).data (4 * a + 3) = img.data (4 * a + 3) := by
  unfold jarvisDither
  dsimp only
  exact foldl_obs _ (fun st => st.1 (4 * a + 3)) _ (img.data, img.data)
    (fun st p _ => jarvisStep_alpha _ _ _ _ _ _ _)

theorem bayerStep_alpha (w : ℕ) (s : ℚ) (mode : DitherMode) (d : ℕ → ℚ)
    (p : ℕ × ℕ) (a : ℕ) :
    bayerStep w s mode d p (4 * a + 3) = d (4 * a + 3) := by
  obtain ⟨y, x⟩ := p
  unfold bayerStep
  dsimp only
  generalize y * w + x = L
  exact upd3_alpha _ _ _ _ _ _ (by omega) (by omega) (by omega)

theorem bayerDither_alpha (img : ImageData) (s : ℚ) (mode : DitherMode) (a : ℕ) :
    (bayerDither img s mode).data (4 * a + 3) = img.data (4 * a + 3) := by
  unfold bayerDither
  dsimp only
  exact foldl_obs _ (fun d => d (4 * a + 3)) _ img.data
    (fun d p _ => bayerStep_alpha _ _ _ _ _ _)

theorem ditherImage_alpha (img : ImageData) (alg : DitherAlgorithm) (s : ℚ)
    (mode : DitherMode) (a : ℕ) :
    (ditherImage img alg s mode).data (4 * a + 3) = img.data (4 * a + 3) := by
  cases alg with
  | floydSteinberg => exact floydSteinbergDither_alpha img s mode a
  | atkinson => exact atkinsonDither_alpha img s mode a
  | stucki => exact stuckiDither_alpha img s mode a
  | jarvis => exact jarvisDither_alpha img s mode a
  | bayer => exact bayerDither_alpha img s mode a
  | none => rfl

/-! ## The BLE transport (src/bluetooth/bluetooth.ts, src/bluetooth/types.ts) -/

/-- Command bytes of `EpdCmd` (src/bluetooth/types.ts). -/
def EpdCmd.INIT : ℕ := 0x01

def EpdCmd.REFRESH : ℕ := 0x05

def EpdCmd.WRITE_IMG : ℕ := 0x30

/-- One call to `write(cmd, data, withResponse)`: the command byte, the data
bytes appended after it, and whether the acknowledged
`writeValueWithResponse` variant was requested.  `write` catches transport
errors internally and reports them only through its boolean result. -/
structure WriteAttempt where
  cmd : ℕ
  payload : List ℕ
  withResponse : Bool
deriving DecidableEq, Repr

/-- The `step` argument of `writeImage`. -/
inductive ImgStep where
  | bw
  | color
  | red
deriving DecidableEq, Repr

/-- Split a byte list into consecutive chunks of `cs` bytes: the
`for (let i = 0; i < data.length; i += chunkSize)` loop of `writeImage` with
`data.slice(i, i + chunkSize)`.  The `fuel` argument (instantiated with the
list length) makes the recursion structural; it agrees with the loop for
every `cs > 0` (for `cs = 0` the loop would not terminate). -/
def chunksOfGo (cs : ℕ) : ℕ → List ℕ → List (List ℕ)
  | 0, _ => []
  | _, [] => []
  | fuel + 1, a :: l => ((a :: l).take cs) :: chunksOfGo cs fuel ((a :: l).drop cs)

def chunksOf (cs : ℕ) (l : List ℕ) : List (List ℕ) :=
  chunksOfGo cs l.length l

/-- The chunk header byte
`(step === 'bw' ? 0x0F : 0x00) | (i === 0 ? 0x00 : 0xF0)`; for `cs > 0` the
byte offset `i` is zero exactly on the first chunk, so the header takes the
chunk index `k`. -/
def stepHeader (step : ImgStep) (k : ℕ) : ℕ :=
  (if step = ImgStep.bw then 0x0F else 0x00) ||| (if k = 0 then 0x00 else 0xF0)

/-- The chunk loop of `writeImage`:  `noReplyCount` starts at
`interleavedCount`; while it is positive the chunk goes out without response
and the counter decrements, at zero the chunk goes out with response and the
counter resets to `interleavedCount`.  Each chunk is sent unconditionally —
the boolean results of the individual `write` calls are discarded. -/
def writeImageGo (step : ImgStep) (ic : ℕ) :
    List (List ℕ) → ℕ → ℕ → List WriteAttempt
  | [], _, _ => []
  | c :: rest, k, nrc =>
    if 0 < nrc then
      ⟨EpdCmd.WRITE_IMG, stepHeader step k :: c, false⟩ ::
        writeImageGo step ic rest (k + 1) (nrc - 1)
    else
      ⟨EpdCmd.WRITE_IMG, stepHeader step k :: c, true⟩ ::
        writeImageGo step ic rest (k + 1) ic

/-- `writeImage(data, step)` (bluetooth.ts line 174) with transport unit
`mtusize` (chunk size `mtusize - 2`) and `interleavedcount` `ic`: the
sequence of write attempts it issues. -/
def writeImage (data : List ℕ) (step : ImgStep) (mtusize ic : ℕ) :
    List WriteAttempt :=
  writeImageGo step ic (chunksOf (mtusize - 2) data) 0 ic

/-- One iteration of the inner `j` loop of `convertUC8159` (two 2-bit pixels
packed into one output byte): the payload byte together with the
twice-shifted black and color bytes. -/
def ucByte (black color : ℕ) : ℕ × ℕ × ℕ :=
  let d0 : ℕ :=
    if color &&& 0x80 = 0 then 0x04 else if black &&& 0x80 = 0 then 0x00 else 0x03
  let d1 := (d0 <<< 4) &&& 0xFF
  let black1 := (black <<< 1) &&& 0xFF
  let color1 := (color <<< 1) &&& 0xFF
  let d2 :=
    if color1 &&& 0x80 = 0 then d1 ||| 0x04
    else if black1 &&& 0x80 = 0 then d1 ||| 0x00 else d1 ||| 0x03
  (d2, (black1 <<< 1) &&& 0xFF, (color1 <<< 1) &&& 0xFF)

/-- The four `j` iterations of `convertUC8159` for one input byte pair. -/
def ucBytes (black color : ℕ) : List ℕ :=
  let s1 := ucByte black color
  let s2 := ucByte s1.2.1 s1.2.2
  let s3 := ucByte s2.2.1 s2.2.2
  let s4 := ucByte s3.2.1 s3.2.2
  [s1.1, s2.1, s3.1, s4.1]

/-- `convertUC8159(blackWhiteData, redWhiteData)` (bluetooth.ts line 317):
each black/red input byte pair expands to four UC8159 bytes. -/
def convertUC8159 (bw rd : List ℕ) : List ℕ :=
  (bw.zip rd).flatMap fun p => ucBytes p.1 p.2

/-- Result of `sendimg`: its boolean return value plus the write attempts it
issued, in order. -/
structure SendResult where
  success : Bool
  attempts : List WriteAttempt
deriving DecidableEq, Repr

/-- The image phase of `sendimg` for each color mode: the attempts of the
`writeImage` calls it makes, or `none` for the unsupported `sixColor` mode
(the `else` branch that logs and returns `false`).  `ucDriver` is the DOM
condition `epdDriverSelect.value === '08' || epdDriverSelect.value === '09'`
selecting the UC8159 conversion. -/
def imagePhaseAttempts (mode : DitherMode) (data : List ℕ) (mtusize ic : ℕ)
    (ucDriver : Bool) : Option (List WriteAttempt) :=
  match mode with
  | .fourColor => some (writeImage data .color mtusize ic)
  | .threeColor =>
    let halfLength := data.length / 2
    let blackWhiteData := data.take halfLength
    let redWhiteData := data.drop halfLength
    if ucDriver then
      some (writeImage (convertUC8159 blackWhiteData redWhiteData) .bw mtusize ic)
    else
      some (writeImage blackWhiteData .bw mtusize ic ++
        writeImage redWhiteData .red mtusize ic)
  | .blackWhiteColor =>
    if ucDriver then
      some (writeImage (convertUC8159 data (List.replicate data.length 0xFF)) .bw mtusize ic)
    else
      some (writeImage data .bw mtusize ic)
  | .sixColor => none

/-- `sendimg` (bluetooth.ts line 347) observed through the write attempts it
issues.  `connected` is the `gattServer.connected` test, `data` the
`processImageData` output, and `oracle n` the boolean result of the `n`-th
`write` call.  Only the checked `INIT` result (call 0) and `REFRESH` result
(the last call) influence the returned boolean: a failed `INIT` throws before
the image phase, while the image-phase chunk results are discarded by
`writeImage` and `REFRESH` is attempted regardless. -/
def sendimg (connected : Bool) (mode : DitherMode) (data : List ℕ)
    (mtusize ic : ℕ) (ucDriver : Bool) (oracle : ℕ → Bool) : SendResult :=
  if connected = false then ⟨false, []⟩
  else
    let initAttempt : WriteAttempt := ⟨EpdCmd.INIT, [], true⟩
    if oracle 0 = false then ⟨false, [initAttempt]⟩
    else
      match imagePhaseAttempts mode data mtusize ic ucDriver with
      | Option.none => ⟨false, [initAttempt]⟩
      | some img =>
        ⟨oracle (1 + img.length),
          initAttempt :: (img ++ [⟨EpdCmd.REFRESH, [], true⟩])⟩

/-! ## Transport lemmas -/

theorem chunksOfGo_length (cs : ℕ) (hcs : 0 < cs) :
    ∀ (fuel : ℕ) (l : List ℕ), l.length ≤ fuel →
      (chunksOfGo cs fuel l).length = (l.length + cs - 1) / cs := by
  intro fuel
  induction fuel with
  | zero =>
    intro l hl
    have h0 : l = [] := List.eq_nil_of_length_eq_zero (Nat.le_zero.mp hl)
    subst h0
    cases cs with
    | zero => exact absurd hcs (by omega)
    | succ m =>
      show ([] : List (List ℕ)).length = (0 + (m + 1) - 1) / (m + 1)
      rw [List.length_nil, Nat.div_eq_of_lt (by omega)]
  | succ n ih =>
    intro l hl
    cases l with
    | nil =>
      cases cs with
      | zero => exact absurd hcs (by omega)
      | succ m =>
        show ([] : List (List ℕ)).length = (0 + (m + 1) - 1) / (m + 1)
        rw [List.length_nil, Nat.div_eq_of_lt (by omega)]
    | cons a t =>
      cases cs with
      | zero => exact absurd hcs (by omega)
      | succ m =>
        rw [show chunksOfGo (m + 1) (n + 1) (a :: t) =
          ((a :: t).take (m + 1)) :: chunksOfGo (m + 1) n ((a :: t).drop (m + 1)) from rfl]
        rw [List.length_cons,
          ih ((a :: t).drop (m + 1)) (by rw [List.length_drop]; simp at hl ⊢; omega),
          List.length_drop]
        rcases le_or_lt (m + 1) (a :: t).length with hle | hlt
        · rw [Nat.sub_add_cancel hle,
            show (a :: t).length + (m + 1) - 1 = ((a :: t).length - 1) + (m + 1) by
              simp; omega,
            Nat.add_div_right _ (by omega)]
        · rw [Nat.sub_eq_zero_of_le (le_of_lt hlt)]
          rw [Nat.zero_add, Nat.div_eq_of_lt (by omega),
            show (a :: t).length + (m + 1) - 1 = ((a :: t).length - 1) + (m + 1) by
              simp; omega,
            Nat.add_div_right _ (by omega),
            Nat.div_eq_of_lt (by simp only [List.length_cons] at hlt ⊢; omega)]

theorem chunksOf_length (cs : ℕ) (hcs : 0 < cs) (l : List ℕ) :
    (chunksOf cs l).length = (l.length + cs - 1) / cs :=
  chunksOfGo_length cs hcs l.length l le_rfl

/-- Contents of the chunks: the `j`-th chunk carries
`data.slice(j*cs, j*cs + cs)`. -/
theorem chunksOfGo_getElem (cs : ℕ) (hcs : 0 < cs) :
    ∀ (fuel : ℕ) (l : List ℕ), l.length ≤ fuel →
      ∀ j < (chunksOfGo cs fuel l).length,
        (chunksOfGo cs fuel l)[j]? = some ((l.drop (j * cs)).take cs) := by
  intro fuel
  induction fuel with
  | zero =>
    intro l hl j hj
    have h0 : l = [] := List.eq_nil_of_length_eq_zero (Nat.le_zero.mp hl)
    subst h0
    cases cs with
    | zero => exact absurd hcs (by omega)
    | succ m => exact absurd hj (by simp [chunksOfGo])
  | succ n ih =>
    intro l hl j hj
    cases l with
    | nil =>
      cases cs with
      | zero => exact absurd hcs (by omega)
      | succ m => exact absurd hj (by simp [chunksOfGo])
    | cons a t =>
      cases cs with
      | zero => exact absurd hcs (by omega)
      | succ m =>
        rw [show chunksOfGo (m + 1) (n + 1) (a :: t) =
          ((a :: t).take (m + 1)) :: chunksOfGo (m + 1) n ((a :: t).drop (m + 1)) from rfl]
        cases j with
        | zero =>
          rw [show (0 : ℕ) * (m + 1) = 0 by omega, List.drop_zero,
            List.getElem?_cons_zero]
        | succ j' =>
          rw [show chunksOfGo (m + 1) (n + 1) (a :: t) =
            ((a :: t).take (m + 1)) :: chunksOfGo (m + 1) n ((a :: t).drop (m + 1))
            from rfl] at hj
          rw [List.getElem?_cons_succ,
            ih ((a :: t).drop (m + 1)) (by rw [List.length_drop]; simp at hl ⊢; omega)
              j' (by rw [List.length_cons] at hj; omega),
            List.drop_drop,
            show m + 1 + j' * (m + 1) = (j' + 1) * (m + 1) by ring]

theorem writeImageGo_length (step : ImgStep) (ic : ℕ) :
    ∀ (l : List (List ℕ)) (k nrc : ℕ),
      (writeImageGo step ic l k nrc).length = l.length := by
  intro l
  induction l with
  | nil => intro k nrc; rfl
  | cons c rest ih =>
    intro k nrc
    unfold writeImageGo
    split
    · rw [List.length_cons, List.length_cons, ih]
    · rw [List.length_cons, List.length_cons, ih]

/-- The attempt at position `j` of the chunk loop: command `WRITE_IMG`, the
header for chunk index `k + j`, the `j`-th chunk as payload, and response
requested exactly when `j + 1 + (ic - nrc)` is a multiple of `ic + 1` (the
counter invariant; the loop starts with `nrc = ic`). -/
theorem writeImageGo_getElem (step : ImgStep) (ic : ℕ) :
    ∀ (l : List (List ℕ)) (k nrc : ℕ), nrc ≤ ic →
      ∀ (j : ℕ) (c : List ℕ), l[j]? = some c →
        (writeImageGo step ic l k nrc)[j]? =
          some ⟨EpdCmd.WRITE_IMG, stepHeader step (k + j) :: c,
            decide ((j + 1 + (ic - nrc)) % (ic + 1) = 0)⟩ := by
  intro l
  induction l with
  | nil =>
    intro k nrc _ j c hc
    rw [List.getElem?_nil] at hc
    exact absurd hc (by simp)
  | cons c0 rest ih =>
    intro k nrc hnrc j c hc
    unfold writeImageGo
    rcases Nat.eq_zero_or_pos nrc with h0 | hpos
    · subst h0
      rw [if_neg (by omega)]
      cases j with
      | zero =>
        rw [List.getElem?_cons_zero] at hc
        injection hc with hc
        subst hc
        rw [List.getElem?_cons_zero, Nat.add_zero,
          show (0 + 1 + (ic - 0)) % (ic + 1) = 0 by
            rw [show 0 + 1 + (ic - 0) = ic + 1 by omega, Nat.mod_self]]
        rw [show decide ((0 : ℕ) = 0) = true from rfl]
      | succ j' =>
        rw [List.getElem?_cons_succ] at hc
        rw [List.getElem?_cons_succ, ih (k + 1) ic le_rfl j' c hc,
          show k + 1 + j' = k + (j' + 1) by omega,
          show (j' + 1 + (ic - ic)) % (ic + 1) = (j' + 1 + 1 + (ic - 0)) % (ic + 1) by
            rw [show j' + 1 + 1 + (ic - 0) = (j' + 1 + (ic - ic)) + (ic + 1) by omega,
              Nat.add_mod_right]]
    · rw [if_pos hpos]
      cases j with
      | zero =>
        rw [List.getElem?_cons_zero] at hc
        injection hc with hc
        subst hc
        rw [List.getElem?_cons_zero, Nat.add_zero,
          show (0 + 1 + (ic - nrc)) % (ic + 1) = 1 + (ic - nrc) by
            rw [Nat.zero_add, Nat.mod_eq_of_lt (by omega)],
          show decide (1 + (ic - nrc) = 0) = false from decide_eq_false (by omega)]
      | succ j' =>
        rw [List.getElem?_cons_succ] at hc
        rw [List.getElem?_cons_succ, ih (k + 1) (nrc - 1) (by omega) j' c hc,
          show k + 1 + j' = k + (j' + 1) by omega,
          show j' + 1 + (ic - (nrc - 1)) = j' + 1 + 1 + (ic - nrc) by omega]

/-- `writeImage` with `mtusize > 2`: the number of chunks is
`⌈N / (mtusize - 2)⌉`, and the `j`-th attempt carries the `j`-th slice of the
payload behind its header and requests a response exactly when `j + 1` is a
multiple of `ic + 1`. -/
theorem writeImage_spec (data : List ℕ) (step : ImgStep) (mtusize ic : ℕ)
    (hmtu : 2 < mtusize) :
    (writeImage data step mtusize ic).length =
      (data.length + (mtusize - 2) - 1) / (mtusize - 2)
    ∧ ∀ j < (data.length + (mtusize - 2) - 1) / (mtusize - 2),
        (writeImage data step mtusize ic)[j]? =
          some ⟨EpdCmd.WRITE_IMG,
            stepHeader step j :: ((data.drop (j * (mtusize - 2))).take (mtusize - 2)),
            decide ((j + 1) % (ic + 1) = 0)⟩ := by
  have hcs : 0 < mtusize - 2 := by omega
  constructor
  · rw [writeImage, writeImageGo_length, chunksOf_length _ hcs]
  · intro j hj
    have hchunk : (chunksOf (mtusize - 2) data)[j]? =
        some ((data.drop (j * (mtusize - 2))).take (mtusize - 2)) := by
      apply chunksOfGo_getElem _ hcs _ _ le_rfl
      rw [show chunksOfGo (mtusize - 2) data.length data = chunksOf (mtusize - 2) data
        from rfl, chunksOf_length _ hcs]
      exact hj
    have h := writeImageGo_getElem step ic (chunksOf (mtusize - 2) data) 0 ic le_rfl
      j _ hchunk
    rw [writeImage, h, Nat.zero_add, Nat.sub_self, Nat.add_zero]

/-! ## Additional helper lemmas for the claim theorems -/

theorem labSearch_cons (r g b : ℚ) (hd c : ColorPaletteItem)
    (rest : List ColorPaletteItem) :
    labSearch r g b hd (c :: rest) =
      (rest.foldl (minStep (entryDistance r g b))
        (((entryDistance r g b c : ℝ) : WithTop ℝ), c)).2 := by
  rw [labSearch_eq_minStep_fold, List.foldl_cons,
    show minStep (entryDistance r g b) ((⊤ : WithTop ℝ), hd) c =
      (((entryDistance r g b c : ℝ) : WithTop ℝ), c) from by
        unfold minStep
        dsimp only
        rw [if_pos (WithTop.coe_lt_top _)]]

/-- The all-gray 1×1 test image (RGBA bytes `100,100,100,255`). -/
def gray11 : ImageData := ⟨1, 1, fun i => if i < 3 then 100 else if i = 3 then 255 else 0⟩

/-- The all-white 4×1 test image (four RGBA pixels `255,255,255,255`). -/
def wht41 : ImageData := ⟨4, 1, fun i => if i < 16 then 255 else 0⟩

theorem wht41_WF : wht41.WF := by
  intro i hi
  have hi' : 4 * 4 * 1 ≤ i := hi
  show (if i < 16 then (255 : ℚ) else 0) = 0
  rw [if_neg (by omega)]

theorem wht41_quant (pal : List ColorPaletteItem) (e : ColorPaletteItem)
    (he : e ∈ pal) (hr : e.r = 255) (hg : e.g = 255) (hb : e.b = 255) :
    QuantizedImage wht41 pal := by
  refine ⟨wht41_WF, fun p h1 h2 => ?_⟩
  have h1' : p.1 < 1 := h1
  have h2' : p.2 < 4 := h2
  refine ⟨e, he, ?_, ?_, ?_, ?_⟩
  · show (if (p.1 * 4 + p.2) * 4 < 16 then (255 : ℚ) else 0) = e.r
    rw [if_pos (by omega), hr]
  · show (if (p.1 * 4 + p.2) * 4 + 1 < 16 then (255 : ℚ) else 0) = e.g
    rw [if_pos (by omega), hg]
  · show (if (p.1 * 4 + p.2) * 4 + 2 < 16 then (255 : ℚ) else 0) = e.b
    rw [if_pos (by omega), hb]
  · show (if (p.1 * 4 + p.2) * 4 + 3 < 16 then (255 : ℚ) else 0) = 255
    rw [if_pos (by omega)]

/-- The 1×2 image with a black top pixel and a white bottom pixel: the
smallest four-color-quantized image on which the four-color byte layout
collides (width not a multiple of 4). -/
def fourBugImg : ImageData :=
  ⟨1, 2, fun i => if 8 ≤ i then 0 else if i % 4 = 3 then 255 else if i < 4 then 0 else 255⟩

theorem fourBugImg_quant : QuantizedImage fourBugImg fourColorPalette := by
  refine ⟨?_, ?_⟩
  · intro i hi
    have hi' : 4 * 1 * 2 ≤ i := hi
    show (if 8 ≤ i then (0 : ℚ) else if i % 4 = 3 then 255 else if i < 4 then 0 else 255) = 0
    rw [if_pos (by omega)]
  · rintro ⟨y, x⟩ h1 h2
    have h1' : y < 2 := h1
    have h2' : x < 1 := h2
    interval_cases y <;> interval_cases x
    · exact ⟨⟨"黑色", 0, 0, 0, 0x00⟩, by decide, by decide, by decide, by decide, by decide⟩
    · exact ⟨⟨"白色", 255, 255, 255, 0x01⟩, by decide, by decide, by decide, by decide,
        by decide⟩

/-- Evaluation helper for one four-color pack step (given the closest color). -/
theorem fourStep_eval (width : ℕ) (data : ℕ → ℚ) (st : ℕ → ℕ) (y x : ℕ)
    (e : ColorPaletteItem)
    (he : findClosestColor (data ((y * width + x) * 4)) (data ((y * width + x) * 4 + 1))
      (data ((y * width + x) * 4 + 2)) DitherMode.fourColor = e) :
    fourStep width data st (y, x) =
      Function.update st ((y * width + x) / 4)
        (st ((y * width + x) / 4) ||| (e.value <<< (6 - x % 4 * 2))) := by
  unfold fourStep
  dsimp only
  rw [he]

/-- Evaluation helper for one four-color decode step (given the packed byte). -/
theorem fourDecStep_eval (pd : Bytes) (width : ℕ) (st : ℕ → ℚ) (y x v : ℕ)
    (hv : pd.get ((y * width + x) / 4) = v) :
    fourDecStep pd width st (y, x) =
      upd4 st ((y * width + x) * 4)
        (((fourColorValues.find? (fun c => c.value == ((v >>> (6 - x % 4 * 2)) &&& 0x03))).getD
            ⟨0x01, 255, 255, 255⟩).r)
        (((fourColorValues.find? (fun c => c.value == ((v >>> (6 - x % 4 * 2)) &&& 0x03))).getD
            ⟨0x01, 255, 255, 255⟩).g)
        (((fourColorValues.find? (fun c => c.value == ((v >>> (6 - x % 4 * 2)) &&& 0x03))).getD
            ⟨0x01, 255, 255, 255⟩).b) 255 := by
  unfold fourDecStep
  dsimp only
  rw [hv]

/-- Packing `fourBugImg` in four-color mode: both pixels collide into byte 0
(linear indexes 0 and 1 both give byte `0`, both with shift 6), so the white
bottom pixel's code `0x01 <<< 6` is ORed over the black top pixel's
`0x00 <<< 6`, giving 64. -/
theorem fourBug_byte : (processImageData fourBugImg DitherMode.fourColor).get 0 = 64 := by
  have h1 : fourStep fourBugImg.width fourBugImg.data (fun _ => 0) (0, 0) =
      Function.update (fun _ => 0) 0 0 :=
    fourStep_eval fourBugImg.width fourBugImg.data (fun _ => 0) 0 0 _ closest_four_black
  have h2 : fourStep fourBugImg.width fourBugImg.data
      (Function.update (fun _ => 0) 0 0) (1, 0) =
      Function.update (Function.update (fun _ => 0) 0 0) 0 64 :=
    fourStep_eval fourBugImg.width fourBugImg.data _ 1 0 _ closest_four_white
  rw [processImageData_four_get,
    show pixelSeq fourBugImg.width fourBugImg.height = [(0, 0), (1, 0)] from rfl,
    List.foldl_cons, List.foldl_cons, List.foldl_nil, h1, h2]
  rfl

/-! ## Claim theorems -/

/-- C1 (amended): for palette-quantized well-formed images the pack/unpack
round trip is exact in two-color, three-color and six-color mode for every
image, and in four-color mode whenever the width is a multiple of 4 (the
four-color packer indexes bytes by the linear pixel index divided by 4 but
shifts by `x % 4`, and the two only stay in lockstep when `4 ∣ width`). -/
theorem claim_C1 (img : ImageData) :
    (QuantizedImage img [rgbBlack, rgbWhite] →
      decodeProcessedData (processImageData img DitherMode.blackWhiteColor)
        img.width img.height DitherMode.blackWhiteColor = img)
    ∧ (QuantizedImage img threeColorPalette →
      decodeProcessedData (processImageData img DitherMode.threeColor)
        img.width img.height DitherMode.threeColor = img)
    ∧ (QuantizedImage img rgbPalette →
      decodeProcessedData (processImageData img DitherMode.sixColor)
        img.width img.height DitherMode.sixColor = img)
    ∧ (img.width % 4 = 0 → QuantizedImage img fourColorPalette →
      decodeProcessedData (processImageData img DitherMode.fourColor)
        img.width img.height DitherMode.fourColor = img) :=
  ⟨roundtrip_bw img, roundtrip_three img, roundtrip_six img,
   fun hw hq => roundtrip_four img hw hq⟩

/-- Witness for C1 on the all-white 4×1 image, which is quantized for every
mode's palette and has width divisible by 4. -/
theorem claim_C1_witness :
    (decodeProcessedData (processImageData wht41 DitherMode.blackWhiteColor)
      wht41.width wht41.height DitherMode.blackWhiteColor = wht41)
    ∧ (decodeProcessedData (processImageData wht41 DitherMode.threeColor)
      wht41.width wht41.height DitherMode.threeColor = wht41)
    ∧ (decodeProcessedData (processImageData wht41 DitherMode.sixColor)
      wht41.width wht41.height DitherMode.sixColor = wht41)
    ∧ (decodeProcessedData (processImageData wht41 DitherMode.fourColor)
      wht41.width wht41.height DitherMode.fourColor = wht41) := by
  have h := claim_C1 wht41
  exact ⟨h.1 (wht41_quant _ rgbWhite (by decide) rfl rfl rfl),
    h.2.1 (wht41_quant _ ⟨"白色", 255, 255, 255, 0x01⟩ (by decide) rfl rfl rfl),
    h.2.2.1 (wht41_quant _ rgbWhite (by decide) rfl rfl rfl),
    h.2.2.2 rfl (wht41_quant _ ⟨"白色", 255, 255, 255, 0x01⟩ (by decide) rfl rfl rfl)⟩

/-- C1 counterexample in four-color mode: `fourBugImg` is quantized for the
four-color palette, yet decoding its packed bytes turns the black top pixel
(byte 0 of the RGBA buffer is 0) into white (255) — the round trip fails for
widths that are not multiples of 4. -/
theorem claim_C1_counterexample :
    fourBugImg.width % 4 ≠ 0
    ∧ QuantizedImage fourBugImg fourColorPalette
    ∧ (decodeProcessedData (processImageData fourBugImg DitherMode.fourColor)
        fourBugImg.width fourBugImg.height DitherMode.fourColor).data 0 = 255
    ∧ fourBugImg.data 0 = 0 := by
  refine ⟨by decide, fourBugImg_quant, ?_, rfl⟩
  have hd1 : fourDecStep (processImageData fourBugImg DitherMode.fourColor)
      fourBugImg.width (fun _ => 0) (0, 0) = upd4 (fun _ => 0) 0 255 255 255 255 :=
    fourDecStep_eval _ fourBugImg.width (fun _ => 0) 0 0 64 fourBug_byte
  rw [decode_four_data,
    show pixelSeq fourBugImg.width fourBugImg.height = [(0, 0), (1, 0)] from rfl,
    List.foldl_cons, List.foldl_cons, List.foldl_nil, hd1,
    fourDecStep_preserve _ _ _ _ _ (by decide), upd4_at0]

/-- C2 (amended): `findClosestColor` is total and deterministic (it is a
function), its result is always a member of the palette selected for the
mode — which for two-color mode is the full six-color `rgbPalette`, not a
black/white pair — and whenever the Lab distance search runs (every mode but
three-color, outside the blue shortcut) the first entry of the palette
attaining the minimal distance wins: the palette splits around the result
with strictly larger distances before it and larger-or-equal distances after
it. -/
theorem claim_C2 (r g b : ℚ) (mode : DitherMode) :
    findClosestColor r g b mode ∈ selectPalette mode
    ∧ (¬(mode ≠ DitherMode.fourColor ∧ mode ≠ DitherMode.threeColor ∧
          r < 50 ∧ g < 150 ∧ b > 100) →
        mode ≠ DitherMode.threeColor →
        ∃ l1 l2,
          selectPalette mode = l1 ++ findClosestColor r g b mode :: l2
          ∧ (∀ f ∈ l1,
              entryDistance r g b (findClosestColor r g b mode) < entryDistance r g b f)
          ∧ (∀ f ∈ l2,
              entryDistance r g b (findClosestColor r g b mode) ≤ entryDistance r g b f)) := by
  refine ⟨findClosestColor_mem r g b mode, fun hns hnt => ?_⟩
  obtain ⟨c, rest, hpal⟩ := selectPalette_cons mode
  have hfc : findClosestColor r g b mode =
      (rest.foldl (minStep (entryDistance r g b))
        (((entryDistance r g b c : ℝ) : WithTop ℝ), c)).2 := by
    unfold findClosestColor
    rw [if_neg hns, if_neg hnt, hpal,
      show (c :: rest).headI = c from rfl]
    exact labSearch_cons r g b c c rest
  rw [hfc, hpal]
  exact minStep_fold_first_min (entryDistance r g b) rest c

/-- Witness for C2 at the concrete input `(0, 0, 0)` in six-color mode. -/
theorem claim_C2_witness :
    findClosestColor 0 0 0 DitherMode.sixColor ∈ selectPalette DitherMode.sixColor
    ∧ (∃ l1 l2,
        selectPalette DitherMode.sixColor =
          l1 ++ findClosestColor 0 0 0 DitherMode.sixColor :: l2
        ∧ (∀ f ∈ l1,
            entryDistance 0 0 0 (findClosestColor 0 0 0 DitherMode.sixColor) <
              entryDistance 0 0 0 f)
        ∧ (∀ f ∈ l2,
            entryDistance 0 0 0 (findClosestColor 0 0 0 DitherMode.sixColor) ≤
              entryDistance 0 0 0 f)) :=
  ⟨(claim_C2 0 0 0 DitherMode.sixColor).1,
   (claim_C2 0 0 0 DitherMode.sixColor).2
     (fun hc => absurd hc.2.2.2.2 (by norm_num)) (by decide)⟩

/-- C2 counterexample to the claimed two-color palette: in two-color
(`blackWhiteColor`) mode the input `(0, 0, 255)` maps to the six-color
palette's blue entry, which is not a member of a black/white pair. -/
theorem claim_C2_counterexample :
    findClosestColor 0 0 255 DitherMode.blackWhiteColor = rgbBlue
    ∧ rgbBlue ∉ [rgbBlack, rgbWhite] := by
  constructor
  · have hc : DitherMode.blackWhiteColor ≠ DitherMode.fourColor ∧
        DitherMode.blackWhiteColor ≠ DitherMode.threeColor ∧
        (0 : ℚ) < 50 ∧ (0 : ℚ) < 150 ∧ (255 : ℚ) > 100 :=
      ⟨by decide, by decide, by norm_num, by norm_num, by norm_num⟩
    unfold findClosestColor
    rw [if_pos hc]
  · decide

/-- C3 (amended): for `r<50 ∧ g<150 ∧ b>100` the blue shortcut force-returns
the six-color palette's blue entry in two-color and six-color mode — but not
in four-color mode, which is excluded from the shortcut and never returns
blue. -/
theorem claim_C3 (r g b : ℚ) (hr : r < 50) (hg : g < 150) (hb : b > 100) :
    (∀ mode, mode = DitherMode.blackWhiteColor ∨ mode = DitherMode.sixColor →
      findClosestColor r g b mode = rgbBlue)
    ∧ findClosestColor r g b DitherMode.fourColor ≠ rgbBlue := by
  constructor
  · rintro mode (rfl | rfl)
    · unfold findClosestColor
      rw [if_pos (⟨by decide, by decide, hr, hg, hb⟩ :
        DitherMode.blackWhiteColor ≠ DitherMode.fourColor ∧
        DitherMode.blackWhiteColor ≠ DitherMode.threeColor ∧
        r < 50 ∧ g < 150 ∧ b > 100)]
    · unfold findClosestColor
      rw [if_pos (⟨by decide, by decide, hr, hg, hb⟩ :
        DitherMode.sixColor ≠ DitherMode.fourColor ∧
        DitherMode.sixColor ≠ DitherMode.threeColor ∧
        r < 50 ∧ g < 150 ∧ b > 100)]
  · intro hEq
    have hmem := findClosestColor_mem r g b DitherMode.fourColor
    rw [hEq] at hmem
    exact (by decide : rgbBlue ∉ selectPalette DitherMode.fourColor) hmem

/-- Witness for C3 at the concrete input `(0, 0, 255)`. -/
theorem claim_C3_witness :
    (0 : ℚ) < 50 ∧ (0 : ℚ) < 150 ∧ (255 : ℚ) > 100 ∧
    ((∀ mode, mode = DitherMode.blackWhiteColor ∨ mode = DitherMode.sixColor →
        findClosestColor 0 0 255 mode = rgbBlue)
      ∧ findClosestColor 0 0 255 DitherMode.fourColor ≠ rgbBlue) :=
  ⟨by norm_num, by norm_num, by norm_num,
   claim_C3 0 0 255 (by norm_num) (by norm_num) (by norm_num)⟩

/-- C3 counterexample for four-color mode: the input `(0, 0, 255)` satisfies
the shortcut guards, yet four-color mode does not return the blue entry (it
is not even in the four-color palette). -/
theorem claim_C3_counterexample :
    (0 : ℚ) < 50 ∧ (0 : ℚ) < 150 ∧ (255 : ℚ) > 100 ∧
    findClosestColor 0 0 255 DitherMode.fourColor ≠ rgbBlue := by
  refine ⟨by norm_num, by norm_num, by norm_num, fun hEq => ?_⟩
  have hmem := findClosestColor_mem 0 0 255 DitherMode.fourColor
  rw [hEq] at hmem
  exact (by decide : rgbBlue ∉ selectPalette DitherMode.fourColor) hmem

/-- C4: in three-color mode `findClosestColor` bypasses the Lab search: the
red guard `r>120 ∧ r>1.5g ∧ r>1.5b` returns red, otherwise the luminance
`0.299r+0.587g+0.114b` below 128 selects black and at least 128 selects
white. -/
theorem claim_C4 (r g b : ℚ) :
    (r > 120 ∧ r > g * 1.5 ∧ r > b * 1.5 →
      findClosestColor r g b DitherMode.threeColor = ⟨"红色", 255, 0, 0, 0x02⟩)
    ∧ (¬(r > 120 ∧ r > g * 1.5 ∧ r > b * 1.5) →
        0.299 * r + 0.587 * g + 0.114 * b < 128 →
        findClosestColor r g b DitherMode.threeColor = ⟨"黑色", 0, 0, 0, 0x00⟩)
    ∧ (¬(r > 120 ∧ r > g * 1.5 ∧ r > b * 1.5) →
        ¬(0.299 * r + 0.587 * g + 0.114 * b < 128) →
        findClosestColor r g b DitherMode.threeColor = ⟨"白色", 255, 255, 255, 0x01⟩) := by
  have hblue : ¬(DitherMode.threeColor ≠ DitherMode.fourColor ∧
      DitherMode.threeColor ≠ DitherMode.threeColor ∧ r < 50 ∧ g < 150 ∧ b > 100) :=
    fun hc => hc.2.1 rfl
  refine ⟨fun hred => ?_, fun hnred hlum => ?_, fun hnred hnlum => ?_⟩
  · unfold findClosestColor
    rw [if_neg hblue, if_pos rfl, if_pos hred]
  · unfold findClosestColor
    rw [if_neg hblue, if_pos rfl, if_neg hnred, if_pos hlum]
  · unfold findClosestColor
    rw [if_neg hblue, if_pos rfl, if_neg hnred, if_neg hnlum]

/-- Witness for C4 at the concrete inputs `(200,0,0)`, `(0,0,0)`,
`(255,255,255)` covering the red, black and white branches. -/
theorem claim_C4_witness :
    findClosestColor 200 0 0 DitherMode.threeColor = ⟨"红色", 255, 0, 0, 0x02⟩
    ∧ findClosestColor 0 0 0 DitherMode.threeColor = ⟨"黑色", 0, 0, 0, 0x00⟩
    ∧ findClosestColor 255 255 255 DitherMode.threeColor = ⟨"白色", 255, 255, 255, 0x01⟩ :=
  ⟨(claim_C4 200 0 0).1 (by norm_num),
   (claim_C4 0 0 0).2.1 (by norm_num) (by norm_num),
   (claim_C4 255 255 255).2.2 (by norm_num) (by norm_num)⟩

/-- C5 (amended): with transport unit `mtusize > 2` (chunk size
`mtusize − 2`), `writeImage` sends `⌈N / (mtusize − 2)⌉` chunks strictly
sequentially; the `j`-th attempt carries the `j`-th payload slice behind its
header, and acknowledgment is requested exactly once every
`interleavedCount + 1` chunks, starting with the `interleavedCount + 1`-th
(the first `interleavedCount` chunks go out unacknowledged). -/
theorem claim_C5 (data : List ℕ) (step : ImgStep) (mtusize ic : ℕ)
    (hmtu : 2 < mtusize) :
    (writeImage data step mtusize ic).length =
      (data.length + (mtusize - 2) - 1) / (mtusize - 2)
    ∧ ∀ j < (data.length + (mtusize - 2) - 1) / (mtusize - 2),
        (writeImage data step mtusize ic)[j]? =
          some ⟨EpdCmd.WRITE_IMG,
            stepHeader step j :: ((data.drop (j * (mtusize - 2))).take (mtusize - 2)),
            decide ((j + 1) % (ic + 1) = 0)⟩ :=
  writeImage_spec data step mtusize ic hmtu

/-- Witness for C5: payload `[7, 8, 9]`, `mtusize = 4`, `interleavedCount = 1`. -/
theorem claim_C5_witness :
    2 < 4 ∧
    ((writeImage [7, 8, 9] ImgStep.bw 4 1).length =
        (([7, 8, 9] : List ℕ).length + (4 - 2) - 1) / (4 - 2)
      ∧ ∀ j < (([7, 8, 9] : List ℕ).length + (4 - 2) - 1) / (4 - 2),
          (writeImage [7, 8, 9] ImgStep.bw 4 1)[j]? =
            some ⟨EpdCmd.WRITE_IMG,
              stepHeader ImgStep.bw j ::
                ((([7, 8, 9] : List ℕ).drop (j * (4 - 2))).take (4 - 2)),
              decide ((j + 1) % (1 + 1) = 0)⟩) :=
  ⟨by decide, claim_C5 [7, 8, 9] ImgStep.bw 4 1 (by decide)⟩

/-- C5 counterexample to the claimed acknowledgment cadence: with
`interleavedCount = 1` the claim would acknowledge every chunk starting with
the first, but the code sends the first chunk unacknowledged — the period is
`interleavedCount + 1`. -/
theorem claim_C5_counterexample :
    (writeImage [0, 0] ImgStep.bw 3 1).map WriteAttempt.withResponse = [false, true]
    ∧ ([false, true] : List Bool) ≠ [true, true] := by
  exact ⟨rfl, by decide⟩

/-- C6 (amended): during `sendimg`, only the checked `INIT` and `REFRESH`
results matter — once `INIT` succeeds, all image-data chunks and the
`REFRESH` command are sent regardless of any failing image-chunk write
(whose boolean results `writeImage` discards), and the returned boolean is
exactly the `REFRESH` write's result. -/
theorem claim_C6 (mode : DitherMode) (data : List ℕ) (mtusize ic : ℕ)
    (uc : Bool) (oracle : ℕ → Bool) (img : List WriteAttempt)
    (himg : imagePhaseAttempts mode data mtusize ic uc = some img)
    (h0 : oracle 0 = true) :
    sendimg true mode data mtusize ic uc oracle =
      ⟨oracle (1 + img.length),
        ⟨EpdCmd.INIT, [], true⟩ :: (img ++ [⟨EpdCmd.REFRESH, [], true⟩])⟩ := by
  unfold sendimg
  rw [if_neg (by simp), if_neg (by rw [h0]; simp), himg]

/-- Witness for C6: a 2-byte payload in two-color mode, chunk size 1,
`interleavedCount = 1`, with an oracle failing exactly the first image
chunk (write call 1). -/
theorem claim_C6_witness :
    imagePhaseAttempts DitherMode.blackWhiteColor [0, 0] 3 1 false =
      some [⟨EpdCmd.WRITE_IMG, [0x0F, 0], false⟩, ⟨EpdCmd.WRITE_IMG, [0xFF, 0], true⟩]
    ∧ (fun k => decide (k ≠ 1)) 0 = true
    ∧ sendimg true DitherMode.blackWhiteColor [0, 0] 3 1 false
        (fun k => decide (k ≠ 1)) =
      ⟨true, ⟨EpdCmd.INIT, [], true⟩ ::
        (([⟨EpdCmd.WRITE_IMG, [0x0F, 0], false⟩,
           ⟨EpdCmd.WRITE_IMG, [0xFF, 0], true⟩] : List WriteAttempt) ++
          [⟨EpdCmd.REFRESH, [], true⟩])⟩ :=
  ⟨by decide, rfl,
   claim_C6 DitherMode.blackWhiteColor [0, 0] 3 1 false (fun k => decide (k ≠ 1))
     [⟨EpdCmd.WRITE_IMG, [0x0F, 0], false⟩, ⟨EpdCmd.WRITE_IMG, [0xFF, 0], true⟩]
     (by decide) rfl⟩

/-- C6 counterexample: the write at call index 1 — the first image-data
chunk — fails, yet `sendimg` still issues four attempts in total (the second
chunk and `REFRESH` follow the failing write) and returns success. -/
theorem claim_C6_counterexample :
    (fun k => decide (k ≠ 1)) 1 = false
    ∧ (sendimg true DitherMode.blackWhiteColor [0, 0] 3 1 false
        (fun k => decide (k ≠ 1))).attempts.length = 4
    ∧ (sendimg true DitherMode.blackWhiteColor [0, 0] 3 1 false
        (fun k => decide (k ≠ 1))).attempts.getLast? =
        some ⟨EpdCmd.REFRESH, [], true⟩
    ∧ (sendimg true DitherMode.blackWhiteColor [0, 0] 3 1 false
        (fun k => decide (k ≠ 1))).success = true := by
  refine ⟨rfl, by decide, by decide, by decide⟩

/-- C7: the encoded payload length of `processImageData` is a pure function
of width, height and color mode — `w·h` bytes for six-color,
`⌈w·h/4⌉` for four-color, `⌈w/8⌉·h` for two-color and `2·⌈w/8⌉·h` for
three-color — and never depends on the pixel data. -/
theorem claim_C7 (img : ImageData) (mode : DitherMode) :
    (processImageData img mode).size =
      (match mode with
        | DitherMode.sixColor => img.width * img.height
        | DitherMode.fourColor => (img.width * img.height + 3) / 4
        | DitherMode.blackWhiteColor => ((img.width + 7) / 8) * img.height
        | DitherMode.threeColor => 2 * (((img.width + 7) / 8) * img.height))
    ∧ ∀ d : ℕ → ℚ,
        (processImageData ⟨img.width, img.height, d⟩ mode).size =
          (processImageData img mode).size := by
  cases mode with
  | blackWhiteColor => exact ⟨rfl, fun d => rfl⟩
  | threeColor =>
    refine ⟨?_, fun d => rfl⟩
    show img.height * ((img.width + 7) / 8) + img.height * ((img.width + 7) / 8)
      = 2 * (((img.width + 7) / 8) * img.height)
    ring
  | fourColor => exact ⟨rfl, fun d => rfl⟩
  | sixColor => exact ⟨rfl, fun d => rfl⟩

/-- C8 (amended): the `'none'` dithering algorithm is the identity — it
returns the image data unchanged and performs no quantization at all. -/
theorem claim_C8 (img : ImageData) (strength : ℚ) (mode : DitherMode) :
    ditherImage img DitherAlgorithm.none strength mode = img := rfl

/-- C8 counterexample to the claimed direct quantization: a gray `(100,100,100)`
pixel passes through `'none'` dithering untouched, while its nearest
three-color palette entry is black — so `'none'` does not quantize. -/
theorem claim_C8_counterexample :
    (ditherImage gray11 DitherAlgorithm.none 1 DitherMode.threeColor).data 0 = 100
    ∧ (findClosestColor (gray11.data 0) (gray11.data 1) (gray11.data 2)
        DitherMode.threeColor).r = 0
    ∧ (100 : ℚ) ≠ 0 := by
  refine ⟨rfl, ?_, by norm_num⟩
  have hfc : findClosestColor (gray11.data 0) (gray11.data 1) (gray11.data 2)
      DitherMode.threeColor = ⟨"黑色", 0, 0, 0, 0x00⟩ := by
    show findClosestColor 100 100 100 DitherMode.threeColor = _
    unfold findClosestColor
    rw [if_neg (fun hc => hc.2.1 rfl), if_pos rfl, if_neg (by norm_num),
      if_pos (by norm_num)]
  rw [hfc]

/-- C9: `adjustContrast` and every algorithm dispatched by `ditherImage`
(floydSteinberg, atkinson, stucki, jarvis, bayer, none) leave the alpha byte
of every pixel — every fourth byte of the buffer — unchanged. -/
theorem claim_C9 (img : ImageData) (factor strength : ℚ) (mode : DitherMode)
    (alg : DitherAlgorithm) (a : ℕ) :
    (adjustContrast img factor).data (4 * a + 3) = img.data (4 * a + 3)
    ∧ (ditherImage img alg strength mode).data (4 * a + 3) = img.data (4 * a + 3) :=
  ⟨adjustContrast_alpha img factor a, ditherImage_alpha img alg strength mode a⟩

/-- C10: on a connected device with the unsupported `sixColor` palette,
`sendimg` sends exactly the `INIT` command and returns `false`, with no
image-data chunks and no `REFRESH`. -/
theorem claim_C10 (data : List ℕ) (mtusize ic : ℕ) (uc : Bool)
    (oracle : ℕ → Bool) :
    sendimg true DitherMode.sixColor data mtusize ic uc oracle =
      ⟨false, [⟨EpdCmd.INIT, [], true⟩]⟩ := by
  by_cases h : oracle 0 = false <;>
    simp [sendimg, imagePhaseAttempts, h]

end InkMemo
